import Mathlib

/-!
Verification development for the phone-number indexing service
(`src/indexer/indexer.service.ts`).

The embedding works over decoded text: a "string" is a `List Char`
(`Str`), mirroring the JavaScript string operations character by
character.  Stateful S3 interaction is modelled as a pure keyed-blob
store (`Store`): every S3 key the service touches (`db/`, `db/799/`,
`db/799/data.json`, `db/metadata.json`) is a key of the store.
Write failures are modelled by a predicate `wfail` naming the keys
whose `putObject` call throws.
-/

namespace Indexer

abbrev Str := List Char

/-- Convenience conversion from a Lean string literal. -/
def str (s : String) : Str := s.data

/-- JS `String.prototype.split` with a one-character separator:
`"".split(c) = [""]`, separators at the ends produce empty fragments. -/
def splitOnChar (sep : Char) : Str → List Str
  | [] => [[]]
  | c :: cs =>
    if c = sep then [] :: splitOnChar sep cs
    else
      match splitOnChar sep cs with
      | [] => [[c]]
      | g :: gs => (c :: g) :: gs

/-- Whitespace recognised by `String.prototype.trim` (ASCII part; the
sources are ASCII/CP1251 text where only these occur). -/
def isWs (c : Char) : Bool :=
  c = ' ' || c = Char.ofNat 9 || c = Char.ofNat 10 || c = Char.ofNat 13

/-- JS `trim`: drop leading and trailing whitespace. -/
def trimStr (l : Str) : Str :=
  ((l.dropWhile isWs).reverse.dropWhile isWs).reverse

/-- The digit filter `replace(/\D/g, '')`. -/
def digitChars (l : Str) : Str := l.filter Char.isDigit

/-- A double or single quote, the class `["']` used by `normalizePhone`. -/
def isQuote (c : Char) : Bool := c = Char.ofNat 34 || c = Char.ofNat 39

/-- `phone.replace(/^["']+|["']+$/g, '')`: strip the leading run and the
trailing run of quote characters. -/
def stripQuotes (l : Str) : Str :=
  ((l.dropWhile isQuote).reverse.dropWhile isQuote).reverse

/-- `IndexerService.normalizePhone` (indexer.service.ts:451-471): the
normalization used by the ingestion pipeline.  `none` models the `null`
return. -/
def normalizePhone (phone : Str) : Option Str :=
  if phone = [] then none
  else
    let digits := digitChars (stripQuotes phone)
    if 10 ≤ digits.length ∧ digits.length ≤ 12 then
      if digits.length = 10 then some ('7' :: digits)
      else if digits.length = 11 then
        if digits.head? = some '8' then some ('7' :: digits.drop 1)
        else if digits.head? = some '7' then some digits
        else none
      else none
    else none

/-- The inline normalization performed by `findByPhone`
(indexer.service.ts:667-686): strip non-digits; an 11-digit string with
leading '8' gets the '8' replaced by '7'; a 10-digit string gets '7'
prepended only when its first digit is '9'.  The result is valid when it
has 11 characters and starts with '7'; `none` models the thrown
`NotFoundException` for an invalid format. -/
def lookupNormalizePhone (phone : Str) : Option Str :=
  let n : Str :=
    if phone = [] then []
    else
      let d := digitChars phone
      let d := if d.head? = some '8' ∧ d.length = 11 then '7' :: d.drop 1 else d
      let d := if d.length = 10 ∧ d.head? = some '9' then '7' :: d else d
      d
  if n = [] ∨ n.length ≠ 11 ∨ n.head? ≠ some '7' then none else some n

/-- `IndexerService.formatPhoneNumber` (indexer.service.ts:591-594). -/
def formatPhoneNumber (p : Str) : Str :=
  if p.length ≠ 11 then p
  else
    str "+" ++ p.take 1 ++ str " (" ++ (p.drop 1).take 3 ++ str ") " ++
      (p.drop 4).take 3 ++ str "-" ++ (p.drop 7).take 2 ++ str "-" ++
      (p.drop 9).take 2

/-! ### Characterization of the two normalizations -/

theorem dropWhile_eq_self_of_forall {p : Char → Bool} :
    ∀ l : Str, (∀ c ∈ l, p c = false) → l.dropWhile p = l := by
  intro l h
  cases l with
  | nil => rfl
  | cons a t => simp [List.dropWhile, h a (by simp)]

theorem filter_dropWhile_of_imp {p q : Char → Bool}
    (h : ∀ a, q a = true → p a = false) :
    ∀ l : Str, (l.dropWhile q).filter p = l.filter p := by
  intro l
  induction l with
  | nil => rfl
  | cons a t ih =>
    by_cases hq : q a
    · rw [List.dropWhile_cons_of_pos hq, ih, List.filter_cons_of_neg (by simp [h a hq])]
    · rw [List.dropWhile_cons_of_neg hq]

theorem isQuote_not_digit (a : Char) (h : isQuote a = true) : a.isDigit = false := by
  rcases Bool.or_eq_true_iff.mp h with h' | h' <;>
    · rw [decide_eq_true_iff.mp h']; decide

/-- Stripping the surrounding quotes does not change the digit string. -/
theorem digitChars_stripQuotes (l : Str) :
    digitChars (stripQuotes l) = digitChars l := by
  unfold stripQuotes digitChars
  rw [List.filter_reverse, filter_dropWhile_of_imp isQuote_not_digit,
    List.filter_reverse, List.reverse_reverse,
    filter_dropWhile_of_imp isQuote_not_digit]

theorem digitChars_all_digits {l : Str} {c : Char} (h : c ∈ digitChars l) :
    c.isDigit = true := (List.mem_filter.mp h).2

theorem digitChars_ne_nil_of_length {l : Str} {n : Nat} (hn : 0 < n)
    (h : (digitChars l).length = n) : l ≠ [] := by
  intro he
  subst he
  simp [digitChars] at h
  omega

/-- `normalizePhone` in terms of the digit string of its input. -/
theorem normalizePhone_char (s : Str) :
    normalizePhone s =
      (if (digitChars s).length = 10 then some ('7' :: digitChars s)
       else if (digitChars s).length = 11 then
         if (digitChars s).head? = some '8' then some ('7' :: (digitChars s).drop 1)
         else if (digitChars s).head? = some '7' then some (digitChars s)
         else none
       else none) := by
  unfold normalizePhone
  rw [digitChars_stripQuotes]
  by_cases hs : s = []
  · subst hs
    simp [digitChars]
  · simp only [hs, if_false]
    by_cases h10 : (digitChars s).length = 10
    · have hr : 10 ≤ (digitChars s).length ∧ (digitChars s).length ≤ 12 := by omega
      simp [hr, h10]
    · by_cases h11 : (digitChars s).length = 11
      · have hr : 10 ≤ (digitChars s).length ∧ (digitChars s).length ≤ 12 := by omega
        simp [hr, h10, h11]
      · by_cases hr : 10 ≤ (digitChars s).length ∧ (digitChars s).length ≤ 12 <;>
          simp [hr, h10, h11]

/-- The lookup-side normalization in terms of the digit string of its input. -/
theorem lookupNormalizePhone_char (s : Str) :
    lookupNormalizePhone s =
      (if (digitChars s).head? = some '8' ∧ (digitChars s).length = 11 then
         some ('7' :: (digitChars s).drop 1)
       else if (digitChars s).length = 10 ∧ (digitChars s).head? = some '9' then
         some ('7' :: digitChars s)
       else if (digitChars s).length = 11 ∧ (digitChars s).head? = some '7' then
         some (digitChars s)
       else none) := by
  unfold lookupNormalizePhone
  by_cases hs : s = []
  · subst hs
    simp [digitChars]
  · simp only [hs, if_false]
    by_cases h8 : (digitChars s).head? = some '8' ∧ (digitChars s).length = 11
    · have hl : ('7' :: (digitChars s).drop 1).length = 11 := by
        simp [h8.2]
      have hc : ¬ (('7' :: (digitChars s).drop 1).length = 10 ∧
          ('7' :: (digitChars s).drop 1).head? = some '9') := by
        simp [hl]
      simp [h8, hc, hl]
    · by_cases h9 : (digitChars s).length = 10 ∧ (digitChars s).head? = some '9'
      · simp [h8, h9]
      · by_cases h7 : (digitChars s).length = 11 ∧ (digitChars s).head? = some '7'
        · have hne : digitChars s ≠ [] := by
            intro he
            rw [he] at h7
            simp at h7
          simp [h8, h9, h7, hne, h7.1, h7.2]
        · have hval : digitChars s = [] ∨ (digitChars s).length ≠ 11 ∨
              (digitChars s).head? ≠ some '7' := by
            by_cases hl : (digitChars s).length = 11
            · right; right
              intro hc
              exact h7 ⟨hl, hc⟩
            · right; left; exact hl
          simp only [h8, if_false, h9, if_false, h7, if_false]
          simp [hval]

/-- Every successful result of `normalizePhone` is an 11-character digit
string starting with '7'. -/
theorem normalizePhone_some {s r : Str} (h : normalizePhone s = some r) :
    r.length = 11 ∧ r.head? = some '7' ∧ ∀ c ∈ r, c.isDigit = true := by
  rw [normalizePhone_char] at h
  by_cases h10 : (digitChars s).length = 10
  · rw [if_pos h10, Option.some_inj] at h
    subst h
    refine ⟨by simp [h10], rfl, ?_⟩
    intro c hc
    rcases List.mem_cons.mp hc with hc | hc
    · subst hc; decide
    · exact digitChars_all_digits hc
  · rw [if_neg h10] at h
    by_cases h11 : (digitChars s).length = 11
    · rw [if_pos h11] at h
      by_cases h8 : (digitChars s).head? = some '8'
      · rw [if_pos h8, Option.some_inj] at h
        subst h
        refine ⟨by simp [h11], rfl, ?_⟩
        intro c hc
        rcases List.mem_cons.mp hc with hc | hc
        · subst hc; decide
        · exact digitChars_all_digits (List.mem_of_mem_drop hc)
      · rw [if_neg h8] at h
        by_cases h7 : (digitChars s).head? = some '7'
        · rw [if_pos h7, Option.some_inj] at h
          subst h
          exact ⟨h11, h7, fun c hc => digitChars_all_digits hc⟩
        · rw [if_neg h7] at h
          exact absurd h (by simp)
    · rw [if_neg h11] at h
      exact absurd h (by simp)

/-- A string of digit characters is untouched by quote stripping and digit
filtering, so a canonical phone normalizes to itself. -/
theorem normalizePhone_fixed {r : Str} (hlen : r.length = 11)
    (hhead : r.head? = some '7') (hdig : ∀ c ∈ r, c.isDigit = true) :
    normalizePhone r = some r := by
  have hd : digitChars r = r := List.filter_eq_self.mpr hdig
  rw [normalizePhone_char, hd, if_neg (by omega), if_pos hlen,
    if_neg (by rw [hhead]; decide), if_pos hhead]

/-- C6: every digit string of length 10 or 11 accepted by `normalizePhone`
yields an 11-digit result starting with '7', and normalization is
idempotent: renormalizing a successful result returns it unchanged. -/
theorem C6_normalization_shape_and_idempotence :
    (∀ s r : Str, (∀ c ∈ s, c.isDigit = true) →
      (s.length = 10 ∨ s.length = 11) → normalizePhone s = some r →
      r.length = 11 ∧ r.head? = some '7') ∧
    (∀ s r : Str, normalizePhone s = some r → normalizePhone r = some r) := by
  constructor
  · intro s r _ _ h
    exact ⟨(normalizePhone_some h).1, (normalizePhone_some h).2.1⟩
  · intro s r h
    obtain ⟨h1, h2, h3⟩ := normalizePhone_some h
    exact normalizePhone_fixed h1 h2 h3

/-- Witness for C6 at the concrete input "9991234567". -/
theorem C6_normalization_shape_and_idempotence_witness :
    ((str "79991234567").length = 11 ∧ (str "79991234567").head? = some '7') ∧
    normalizePhone (str "79991234567") = some (str "79991234567") :=
  ⟨C6_normalization_shape_and_idempotence.1 (str "9991234567") (str "79991234567")
      (by decide) (by decide) (by decide),
    C6_normalization_shape_and_idempotence.2 (str "9991234567") (str "79991234567")
      (by decide)⟩

/-- C3 counterexample: the digits "0123456789" form a 10-digit string whose
leading digit is not '9'.  The ingestion normalization accepts it (prepending
'7') while the point-lookup normalization rejects it, so the two
normalizations are not the same function and 10-digit inputs are not accepted
"regardless of the leading digit". -/
theorem C3_counterexample :
    normalizePhone (str "0123456789") = some (str "70123456789") ∧
    lookupNormalizePhone (str "0123456789") = none := by
  constructor <;> decide

/-- C3 amended: the two normalizations agree on every input except those
whose digit string has length 10 and does not start with '9'; on those the
ingestion normalization accepts (prepending '7') while the lookup
normalization rejects. -/
theorem C3_amended_normalizations_agree_except_len10_non9 (s : Str) :
    (((digitChars s).length = 10 ∧ (digitChars s).head? ≠ some '9') →
      normalizePhone s = some ('7' :: digitChars s) ∧
      lookupNormalizePhone s = none) ∧
    (¬((digitChars s).length = 10 ∧ (digitChars s).head? ≠ some '9') →
      normalizePhone s = lookupNormalizePhone s) := by
  constructor
  · rintro ⟨h10, h9⟩
    have r1 : ¬((digitChars s).head? = some '8' ∧ (digitChars s).length = 11) :=
      fun hc => absurd hc.2 (by omega)
    have r2 : ¬((digitChars s).length = 10 ∧ (digitChars s).head? = some '9') :=
      fun hc => h9 hc.2
    have r3 : ¬((digitChars s).length = 11 ∧ (digitChars s).head? = some '7') :=
      fun hc => absurd hc.1 (by omega)
    constructor
    · rw [normalizePhone_char, if_pos h10]
    · rw [lookupNormalizePhone_char, if_neg r1, if_neg r2, if_neg r3]
  · intro hnot
    rw [normalizePhone_char, lookupNormalizePhone_char]
    by_cases h10 : (digitChars s).length = 10
    · have h9 : (digitChars s).head? = some '9' := by
        by_contra hc
        exact hnot ⟨h10, hc⟩
      have r1 : ¬((digitChars s).head? = some '8' ∧ (digitChars s).length = 11) :=
        fun hc => absurd hc.2 (by omega)
      rw [if_pos h10, if_neg r1, if_pos ⟨h10, h9⟩]
    · rw [if_neg h10]
      have r2 : ¬((digitChars s).length = 10 ∧ (digitChars s).head? = some '9') :=
        fun hc => absurd hc.1 h10
      by_cases h11 : (digitChars s).length = 11
      · rw [if_pos h11]
        by_cases h8 : (digitChars s).head? = some '8'
        · rw [if_pos h8, if_pos ⟨h8, h11⟩]
        · have r1 : ¬((digitChars s).head? = some '8' ∧ (digitChars s).length = 11) :=
            fun hc => h8 hc.1
          rw [if_neg h8, if_neg r1, if_neg r2]
          by_cases h7 : (digitChars s).head? = some '7'
          · rw [if_pos h7, if_pos ⟨h11, h7⟩]
          · have r3 : ¬((digitChars s).length = 11 ∧ (digitChars s).head? = some '7') :=
              fun hc => h7 hc.2
            rw [if_neg h7, if_neg r3]
      · have r1 : ¬((digitChars s).head? = some '8' ∧ (digitChars s).length = 11) :=
          fun hc => h11 hc.2
        have r3 : ¬((digitChars s).length = 11 ∧ (digitChars s).head? = some '7') :=
          fun hc => h11 hc.1
        rw [if_neg h11, if_neg r1, if_neg r2, if_neg r3]

/-- Witness for the amended C3 at a disagreement input and an agreement
input. -/
theorem C3_amended_normalizations_agree_except_len10_non9_witness :
    (normalizePhone (str "0123456789") = some ('7' :: digitChars (str "0123456789")) ∧
      lookupNormalizePhone (str "0123456789") = none) ∧
    normalizePhone (str "8-999-123-45-67") = lookupNormalizePhone (str "8-999-123-45-67") :=
  ⟨(C3_amended_normalizations_agree_except_len10_non9 (str "0123456789")).1
      (by constructor <;> decide),
    (C3_amended_normalizations_agree_except_len10_non9 (str "8-999-123-45-67")).2
      (by decide)⟩

/-! ### The S3-backed blob store

The service stores everything as S3 objects; we model the bucket as an
association list from full object keys to blob contents.  `putObject`
overwrites, `headObject`/`listObjectsV2` are key-prefix queries. -/

/-- A parsed JSON record object: string keys to string values, later
property assignments overwriting earlier ones. -/
abbrev JsRecord := List (Str × Str)

/-- JS object property assignment `o[k] = v` (replace in place, or append
for a fresh key). -/
def objSet : JsRecord → Str → Str → JsRecord
  | [], k, v => [(k, v)]
  | kv :: rest, k, v => if kv.1 = k then (k, v) :: rest else kv :: objSet rest k v

/-- JS object property read `o[k]`. -/
def objGet : JsRecord → Str → Option Str
  | [], _ => none
  | kv :: rest, k => if kv.1 = k then some kv.2 else objGet rest k

/-- The metadata record written to `<db>/metadata.json`
(`IndexMetadata`, index.types.ts). -/
structure IndexMetadata where
  id : Str
  originalFileName : Str
  totalRecords : Nat
  partitionsCount : Nat
  partitionSize : Nat
  createdAt : Nat
  phoneColumn : Str
deriving DecidableEq

/-- Content of one S3 object: the empty folder-marker object, a
`data.json` partition blob (canonical phone → record), or a
`metadata.json` blob. -/
inductive BlobContent where
  | folderMarker : BlobContent
  | dataBlob : List (Str × JsRecord) → BlobContent
  | metaBlob : IndexMetadata → BlobContent
deriving DecidableEq

/-- The bucket: object key → content. -/
abbrev Store := List (Str × BlobContent)

/-- `getObject`/`headObject` by exact key. -/
def storeGet : Store → Str → Option BlobContent
  | [], _ => none
  | kv :: rest, k => if kv.1 = k then some kv.2 else storeGet rest k

/-- `putObject`: overwrite the object at the key, or create it. -/
def putStore : Store → Str → BlobContent → Store
  | [], k, v => [(k, v)]
  | kv :: rest, k, v => if kv.1 = k then (k, v) :: rest else kv :: putStore rest k v

/-- `prefixExists` (indexer.service.ts:80-93): `listObjectsV2` with the
given key prefix returns at least one object. -/
def storePrefixExists (st : Store) (pfx : Str) : Bool :=
  st.any (fun kv => pfx.isPrefixOf kv.1)

/-- Deduplication of the common prefixes returned by `listObjectsV2`
(first-occurrence order). -/
def dedupKeep (seen : List Str) : List Str → List Str
  | [] => []
  | x :: xs => if x ∈ seen then dedupKeep seen xs else x :: dedupKeep (x :: seen) xs

/-- The folder name a single key contributes under `listFolders pfx`: the
segment between the query prefix and the next '/', skipping empty names
(indexer.service.ts:95-122). -/
def folderOfKey (pfx : Str) (key : Str) : Option Str :=
  if pfx.isPrefixOf key then
    match splitOnChar '/' (key.drop pfx.length) with
    | seg :: _ :: _ => if seg = [] then none else some seg
    | _ => none
  else none

/-- `listFolders` (indexer.service.ts:95-122): the distinct first path
segments (S3 `CommonPrefixes` with delimiter '/') under a key prefix. -/
def listFolders (st : Store) (pfx : Str) : List Str :=
  dedupKeep [] (st.filterMap (fun kv => folderOfKey pfx kv.1))

/-- `getAllDatabases` (indexer.service.ts:958-969): the folders at the
bucket root. -/
def getAllDatabases (st : Store) : List Str :=
  listFolders st []

/-! ### Point lookup -/

/-- The distinct failure outcomes of `findByPhone`
(indexer.service.ts:651-761): `databaseNotFound` is the
`NotFoundException` for a missing database directory, `invalidPhone` the
`NotFoundException` for a phone that fails the inline normalization,
`phoneNotFound` the `PhoneNumberNotFoundException` (thrown both when the
prefix directory is absent and when the data blob lacks the key), and
`dataAccess` the `NotFoundException` for an unreadable data file. -/
inductive FindError where
  | databaseNotFound : FindError
  | invalidPhone : FindError
  | phoneNotFound : FindError
  | dataAccess : FindError
deriving DecidableEq

/-- JS object read on a phone → record mapping. -/
def objGet' : List (Str × JsRecord) → Str → Option JsRecord
  | [], _ => none
  | kv :: rest, k => if kv.1 = k then some kv.2 else objGet' rest k

/-- `IndexerService.findByPhone` (indexer.service.ts:651-761).  Note the
source checks that the database directory exists before normalizing the
phone, and throws the same `PhoneNumberNotFoundException` for an absent
prefix directory as for a missing record key. -/
def findByPhone (st : Store) (databaseId : Str) (phone : Str) :
    Except FindError JsRecord :=
  let dbFolder := databaseId ++ str "/"
  if ¬ storePrefixExists st dbFolder then .error .databaseNotFound
  else
    match lookupNormalizePhone phone with
    | none => .error .invalidPhone
    | some np =>
      let pfx := np.take 3
      let prefixPath := databaseId ++ str "/" ++ pfx ++ str "/"
      if ¬ storePrefixExists st prefixPath then .error .phoneNotFound
      else
        match storeGet st (databaseId ++ str "/" ++ pfx ++ str "/data.json") with
        | some (.dataBlob data) =>
          match objGet' data np with
          | some record => .ok record
          | none => .error .phoneNotFound
        | _ => .error .dataAccess

/-- A sample indexed record. -/
def recSample : JsRecord :=
  [(str "phone", str "79991234567"), (str "formattedPhone", str "+7 (999) 123-45-67")]

/-- A store holding one database `db1` with one prefix blob `799`
containing only the phone 79991234567. -/
def c2Store : Store :=
  [(str "db1/", .folderMarker),
   (str "db1/799/", .folderMarker),
   (str "db1/799/data.json", .dataBlob [(str "79991234567", recSample)])]

/-- C2 counterexample: (a) looking up a phone with absent prefix blob
(780) and looking up a phone whose prefix blob exists but lacks the key
both fail with the same `phoneNotFound` error
(`PhoneNumberNotFoundException`), so there is no `PrefixNotFound` error
distinct from `RecordNotFound`; (b) with an absent database container and
an un-normalizable phone, the lookup fails with `databaseNotFound`, not
`InvalidPhone`, because the container check precedes normalization. -/
theorem C2_counterexample :
    findByPhone c2Store (str "db1") (str "+7 800 123-45-67") =
      .error .phoneNotFound ∧
    findByPhone c2Store (str "db1") (str "+7 999 000-00-00") =
      .error .phoneNotFound ∧
    findByPhone [] (str "db1") (str "12345") = .error .databaseNotFound :=
  ⟨rfl, rfl, rfl⟩

/-- C2 amended: the lookup checks the database container first, failing
with `databaseNotFound` when it is absent (even for un-normalizable
input); with the container present it fails `invalidPhone` when the
inline normalization rejects; an absent prefix blob and a present blob
lacking the canonical key both fail with the same `phoneNotFound` error,
which is distinct from `databaseNotFound` and from `invalidPhone`. -/
theorem C2_amended_lookup_error_taxonomy (st : Store) (db p : Str) :
    (storePrefixExists st (db ++ str "/") = false →
      findByPhone st db p = .error .databaseNotFound) ∧
    (storePrefixExists st (db ++ str "/") = true →
      lookupNormalizePhone p = none →
      findByPhone st db p = .error .invalidPhone) ∧
    (∀ np, storePrefixExists st (db ++ str "/") = true →
      lookupNormalizePhone p = some np →
      storePrefixExists st (db ++ str "/" ++ np.take 3 ++ str "/") = false →
      findByPhone st db p = .error .phoneNotFound) ∧
    (∀ np data, storePrefixExists st (db ++ str "/") = true →
      lookupNormalizePhone p = some np →
      storePrefixExists st (db ++ str "/" ++ np.take 3 ++ str "/") = true →
      storeGet st (db ++ str "/" ++ np.take 3 ++ str "/data.json") =
        some (.dataBlob data) →
      objGet' data np = none →
      findByPhone st db p = .error .phoneNotFound) ∧
    (FindError.phoneNotFound ≠ FindError.databaseNotFound ∧
      FindError.phoneNotFound ≠ FindError.invalidPhone) := by
  refine ⟨?_, ?_, ?_, ?_, by decide, by decide⟩
  · intro h
    simp [findByPhone, h]
  · intro h hn
    simp [findByPhone, h, hn]
  · intro np h hn hp
    simp only [List.append_assoc] at hp
    simp [findByPhone, h, hn, hp]
  · intro np data h hn hp hg ho
    simp only [List.append_assoc] at hp hg
    simp [findByPhone, h, hn, hp, hg, ho]

/-- Witness for the amended C2 on concrete stores. -/
theorem C2_amended_lookup_error_taxonomy_witness :
    findByPhone c2Store (str "db1") (str "+7 800 123-45-67") =
      .error .phoneNotFound ∧
    findByPhone [] (str "db1") (str "12345") = .error .databaseNotFound :=
  ⟨(C2_amended_lookup_error_taxonomy c2Store (str "db1")
      (str "+7 800 123-45-67")).2.2.1 (str "78001234567") (by decide) (by decide)
      (by decide),
    (C2_amended_lookup_error_taxonomy [] (str "db1") (str "12345")).1 (by decide)⟩

/-! ### Ingestion pipeline (`createIndex`, indexer.service.ts:261-449)

The pipeline is modelled as a pure fold over the decoded lines of the
source (the incremental decoding itself is byte-level I/O outside the
embedding).  S3 write failures are modelled by the predicate `wfail` on
object keys; a failing key makes the corresponding `putObject` throw. -/

/-- Decimal rendering of a number (JS `toString` / template literal). -/
def natToStr (n : Nat) : Str := Nat.toDigits 10 n

def lbraceChar : Char := Char.ofNat 123
def rbraceChar : Char := Char.ofNat 125
def quoteChar : Char := Char.ofNat 34

/-- JS `String.prototype.includes`: substring containment. -/
def includesStr (hay needle : Str) : Bool :=
  match hay with
  | [] => needle.isPrefixOf ([] : Str)
  | _ :: t => needle.isPrefixOf hay || includesStr t needle

def backslashChar : Char := Char.ofNat 92

/-- Models `JSON.parse` on the envelope lines the unwrap step targets:
after the opening brace-quote `_0` quote-colon-quote prefix (with or
without a space after the colon) the inner value runs to the next quote,
which must be followed either by the closing brace ending the line or by
a comma introducing further keys (whose well-formedness is assumed, as
produced upstream).  Values containing escape sequences are not
modelled: they are treated as a parse failure, and the caller falls back
to the raw line. -/
def parseEnvelope (line : Str) : Option Str :=
  let tryShape : Str → Option Str := fun op =>
    if op.isPrefixOf line then
      let rest := line.drop op.length
      let v := rest.takeWhile (fun c => c != quoteChar)
      let after := rest.drop v.length
      if backslashChar ∉ v ∧ after.head? = some quoteChar ∧
          (after.drop 1 = [rbraceChar] ∨ (after.drop 1).head? = some ',') then
        some v
      else none
    else none
  match tryShape [lbraceChar, quoteChar, '_', '0', quoteChar, ':', ' ', quoteChar] with
  | some v => some v
  | none => tryShape [lbraceChar, quoteChar, '_', '0', quoteChar, ':', quoteChar]

/-- The JSON-envelope unwrap step (indexer.service.ts:352-361): when the
line starts with `x7b"` or contains `_0`, try to parse it and use the
inner `_0` value (falling back to the line itself when parsing fails or
the value is falsy). -/
def jsonUnwrapLine (line : Str) : Str :=
  if ([lbraceChar, quoteChar].isPrefixOf line || includesStr line (str "_0")) then
    match parseEnvelope line with
    | some v => if v = [] then line else v
    | none => line
  else line

/-- `IndexerService.extractPipeDelimitedData` (indexer.service.ts:473-500). -/
def extractPipeDelimitedData (fields headers : List Str) : JsRecord :=
  let record := (List.range (min fields.length headers.length)).foldl
    (fun r i =>
      let value := trimStr (fields.getD i [])
      let r := objSet r (headers.getD i []) value
      objSet r ('_' :: natToStr i) value) []
  let lastName := trimStr (fields.getD 0 [])
  let firstName := trimStr (fields.getD 1 [])
  let middleName := trimStr (fields.getD 2 [])
  let record := objSet record (str "lastName") lastName
  let record := objSet record (str "firstName") firstName
  let record := objSet record (str "middleName") middleName
  let record := objSet record (str "fullName")
    (trimStr (lastName ++ ' ' :: (firstName ++ ' ' :: middleName)))
  let record := objSet record (str "birthDate") (trimStr (fields.getD 3 []))
  let normalizedPhone := (normalizePhone (trimStr (fields.getD 4 []))).getD []
  let record := objSet record (str "phone") normalizedPhone
  let record := objSet record (str "formattedPhone") (formatPhoneNumber normalizedPhone)
  let record := if 5 < headers.length then
    objSet record (str "snils") (trimStr (fields.getD 5 [])) else record
  let record := if 6 < headers.length then
    objSet record (str "inn") (trimStr (fields.getD 6 [])) else record
  if 7 < headers.length then
    objSet record (str "email") (trimStr (fields.getD 7 [])) else record

/-- JS object property assignment on a phone → record mapping. -/
def objSet' : List (Str × JsRecord) → Str → JsRecord → List (Str × JsRecord)
  | [], k, r => [(k, r)]
  | kv :: rest, k, r => if kv.1 = k then (k, r) :: rest else kv :: objSet' rest k r

/-- `buffer[firstDigits][phone] = record` with on-demand creation of the
per-prefix object (indexer.service.ts:384-388). -/
def bufInsert : List (Str × List (Str × JsRecord)) → Str → Str → JsRecord →
    List (Str × List (Str × JsRecord))
  | [], pfx, k, r => [(pfx, [(k, r)])]
  | pv :: rest, pfx, k, r =>
    if pv.1 = pfx then (pfx, objSet' pv.2 k r) :: rest
    else pv :: bufInsert rest pfx k r

/-- `Set.prototype.add` on the run's prefix set, insertion-ordered. -/
def addUnique (l : List Str) (x : Str) : List Str :=
  if x ∈ l then l else l ++ [x]

/-- `IndexerService.saveBufferToS3` (indexer.service.ts:564-579): for each
buffered prefix, create the prefix folder and overwrite
`<db>/<prefix>/data.json` with the buffer's mapping; a per-prefix failure
is caught and logged, skipping that prefix but continuing the run. -/
def saveBufferToS3 (wfail : Str → Bool) (dbFolder : Str) :
    Store → List (Str × List (Str × JsRecord)) → Store
  | st, [] => st
  | st, pv :: rest =>
    let prefixPath := dbFolder ++ pv.1 ++ str "/"
    if wfail prefixPath then saveBufferToS3 wfail dbFolder st rest
    else
      let st1 := putStore st prefixPath .folderMarker
      let dataKey := prefixPath ++ str "data.json"
      if wfail dataKey then saveBufferToS3 wfail dbFolder st1 rest
      else saveBufferToS3 wfail dbFolder
        (putStore st1 dataKey (.dataBlob pv.2)) rest

instance : DecidableEq (Str × List (Str × JsRecord)) := instDecidableEqProd

/-- The run-scoped mutable state of one ingestion pass. -/
structure IngestState where
  store : Store
  buffer : List (Str × List (Str × JsRecord))
  processed : Nat
  isFirstLine : Bool
  headers : List Str
  recordsFound : Nat
  processedLines : Nat
  prefixesFound : List Str
deriving DecidableEq

/-- The `rl.on('line')` handler (indexer.service.ts:347-406): count the
line, unwrap a JSON envelope, split on '|', treat the first line as the
header row, then extract and normalize the phone in field 4; a valid
record is buffered under its 3-digit prefix, and when the buffered count
reaches the chunk threshold the buffers are flushed and cleared.  Lines
with fewer than 5 fields, an empty phone field, or an unnormalizable
phone are skipped.

The flush is modelled synchronously, as if the stream paused at the
awaited write.  This matches the program exactly for every run with at
most one flush (in particular all the concrete scenario runs below,
which flush once at stream end).  For threshold-crossing runs the real
handler is async and line emission is not paused: the source arrives as
a single chunk, so every flush ends up serializing the full accumulated
buffer — that interleaving is modelled by `createIndexBuffered` further
below, which the round-trip development uses. -/
def stepLine (chunkSize : Nat) (wfail : Str → Bool) (dbFolder : Str)
    (ps : IngestState) (line : Str) : IngestState :=
  let ps := { ps with processedLines := ps.processedLines + 1 }
  let rawData := jsonUnwrapLine line
  let fields := splitOnChar '|' rawData
  if ps.isFirstLine then
    { ps with headers := fields.map trimStr, isFirstLine := false }
  else if 5 ≤ fields.length then
    let phone := if 4 < fields.length then trimStr (fields.getD 4 []) else []
    if phone ≠ [] then
      match normalizePhone phone with
      | some np =>
        let firstDigits := np.take 3
        let ps := { ps with prefixesFound := addUnique ps.prefixesFound firstDigits }
        let buffer := bufInsert ps.buffer firstDigits np
          (extractPipeDelimitedData fields ps.headers)
        let processed := ps.processed + 1
        let recordsFound := ps.recordsFound + 1
        if chunkSize ≤ processed then
          { ps with store := saveBufferToS3 wfail dbFolder ps.store buffer,
                    buffer := [], processed := 0, recordsFound := recordsFound }
        else
          { ps with buffer := buffer, processed := processed,
                    recordsFound := recordsFound }
      | none => ps
    else ps
  else ps

inductive IngestError where
  | busy : IngestError
  | fileNotFound : IngestError
  | storeError : IngestError
deriving DecidableEq

/-- Outcome of an ingestion run.  `stalled` models the unhandled rejection
when `saveMetadata` rethrows inside the `close` handler: the returned
promise never settles and the busy flag is never released. -/
inductive IngestOutcome where
  | ok : IndexMetadata → IngestOutcome
  | err : IngestError → IngestOutcome
  | stalled : IngestOutcome
deriving DecidableEq

structure IngestResult where
  store : Store
  busy : Bool
  outcome : IngestOutcome
deriving DecidableEq

def CHUNK_SIZE : Nat := 50000
def PARTITION_SIZE : Nat := 10000

/-- `IndexerService.createIndex` (indexer.service.ts:261-449) with the
chunk threshold as an explicit parameter (the source fixes it to
`CHUNK_SIZE`).  Inputs: the initial bucket, the write-failure predicate,
the busy flag, the source path and its readability, the database id, the
optional phone column, the clock value (`Date.now()`), and the decoded
lines of the source. -/
def createIndexWith (chunkSize : Nat) (st : Store) (wfail : Str → Bool)
    (busy : Bool) (filePath : Str) (fileOk : Bool) (databaseId : Str)
    (phoneColumn : Option Str) (now : Nat) (lines : List Str) : IngestResult :=
  if busy then ⟨st, true, .err .busy⟩
  else if ¬ fileOk then ⟨st, false, .err .fileNotFound⟩
  else
    let s3FilePath := if filePath.head? = some '/' then filePath.drop 1 else filePath
    let dbFolder := databaseId ++ str "/"
    if wfail dbFolder then ⟨st, false, .err .storeError⟩
    else
      let st1 := putStore st dbFolder .folderMarker
      let final := lines.foldl (stepLine chunkSize wfail dbFolder)
        ⟨st1, [], 0, true, [], 0, 0, []⟩
      let st2 := if final.buffer ≠ [] then
        saveBufferToS3 wfail dbFolder final.store final.buffer else final.store
      let md : IndexMetadata :=
        { id := natToStr now
          originalFileName := (splitOnChar '/' s3FilePath).getLastD []
          totalRecords := final.recordsFound
          partitionsCount := (final.recordsFound + (PARTITION_SIZE - 1)) / PARTITION_SIZE
          partitionSize := PARTITION_SIZE
          createdAt := now
          phoneColumn := phoneColumn.getD (str "phone") }
      let metadataKey := dbFolder ++ str "metadata.json"
      if wfail metadataKey then ⟨st2, true, .stalled⟩
      else ⟨putStore st2 metadataKey (.metaBlob md), false, .ok md⟩

/-- The ingestion entry point with the source's fixed chunk threshold. -/
def createIndex := createIndexWith CHUNK_SIZE

/-! ### Scenario runs for the ingestion pipeline -/

/-- The keys of a data blob, if the object holds one. -/
def blobKeys : Option BlobContent → Option (List Str)
  | some (.dataBlob m) => some (m.map Prod.fst)
  | _ => none

def hdrLinePipe : Str := str "lastName|firstName|middleName|birthDate|phone"

def hdrLineTab : Str := str "lastName\tfirstName\tmiddleName\tbirthDate\tphone"

def rowsPipe : List Str :=
  [str "Ivanov|Ivan|Ivanovich|1990-01-01|9991234567",
   str "Petrov|Petr|Petrovich|1991-02-02|89991234568",
   str "Sidorov|Semen|Semenovich|1992-03-03|79991234569"]

def rowsTab : List Str :=
  [str "Ivanov\tIvan\tIvanovich\t1990-01-01\t9991234567",
   str "Petrov\tPetr\tPetrovich\t1991-02-02\t89991234568",
   str "Sidorov\tSemen\tSemenovich\t1992-03-03\t79991234569"]

/-- Ingestion of the pipe-delimited three-row source into `db1`. -/
def pipeRun : IngestResult :=
  createIndex [] (fun _ => false) false (str "/uploads/source.txt") true
    (str "db1") none 123 (hdrLinePipe :: rowsPipe)

/-- Ingestion of the tab-delimited three-row source into `db1`. -/
def tabRun : IngestResult :=
  createIndex [] (fun _ => false) false (str "/uploads/source.txt") true
    (str "db1") none 123 (hdrLineTab :: rowsTab)

/-- C7 counterexample: ingesting the tab-delimited source of Scenario A
indexes zero records (the field split is `split('|')` only, so a
tab-delimited row has a single field and is skipped as too short):
`totalRecords = 0`, not 3, and no `799` partition blob is written. -/
theorem C7_counterexample :
    tabRun.outcome = .ok
      { id := natToStr 123, originalFileName := str "source.txt",
        totalRecords := 0, partitionsCount := 0, partitionSize := 10000,
        createdAt := 123, phoneColumn := str "phone" } ∧
    storeGet tabRun.store (str "db1/799/data.json") = none := ⟨rfl, rfl⟩

/-- C7 amended: the field split supports only the pipe delimiter; for the
pipe-delimited source with one header line and the three data rows of
Scenario A, exactly 3 records are indexed, keyed 79991234567, 79991234568
and 79991234569, all stored under the single prefix 799, with
`totalRecords = 3`. -/
theorem C7_amended_pipe_delimited_scenario :
    pipeRun.outcome = .ok
      { id := natToStr 123, originalFileName := str "source.txt",
        totalRecords := 3, partitionsCount := 1, partitionSize := 10000,
        createdAt := 123, phoneColumn := str "phone" } ∧
    blobKeys (storeGet pipeRun.store (str "db1/799/data.json")) =
      some [str "79991234567", str "79991234568", str "79991234569"] ∧
    listFolders pipeRun.store (str "db1/") = [str "799"] := ⟨rfl, rfl, rfl⟩

/-- A run whose only store failure is the write of the `799` partition
blob during the flush. -/
def failDataRun : IngestResult :=
  createIndex [] (fun k => k == str "db1/799/data.json") false
    (str "/uploads/source.txt") true (str "db1") none 123
    (hdrLinePipe :: [str "Ivanov|Ivan|Ivanovich|1990-01-01|9991234567"])

/-- C9 counterexample: a failed partition-blob write during a flush is
caught and logged inside `saveBufferToS3`, so the run does NOT abort: it
completes successfully, still reports `totalRecords = 1`, and persists the
metadata record, while the partition data for the failed prefix is
silently missing from the store. -/
theorem C9_counterexample :
    failDataRun.outcome = .ok
      { id := natToStr 123, originalFileName := str "source.txt",
        totalRecords := 1, partitionsCount := 1, partitionSize := 10000,
        createdAt := 123, phoneColumn := str "phone" } ∧
    failDataRun.busy = false ∧
    storeGet failDataRun.store (str "db1/799/data.json") = none ∧
    storeGet failDataRun.store (str "db1/metadata.json") =
      some (.metaBlob
        { id := natToStr 123, originalFileName := str "source.txt",
          totalRecords := 1, partitionsCount := 1, partitionSize := 10000,
          createdAt := 123, phoneColumn := str "phone" }) :=
  ⟨rfl, rfl, rfl, rfl⟩

/-- C9 amended: store-level errors outside the per-prefix flush writes —
creating the database folder, or an unreadable source — abort the run
before metadata is written, release the busy flag, and are surfaced to
the caller (and a concurrent run is rejected as busy without touching the
flag); but a failed partition-blob write during a chunk flush is caught
and logged, the run continues, and metadata is still persisted. -/
theorem C9_amended_store_error_scope (st : Store) (wfail : Str → Bool)
    (filePath : Str) (fileOk : Bool) (db : Str) (pc : Option Str) (now : Nat)
    (lines : List Str) :
    (wfail (db ++ str "/") = true → fileOk = true →
      createIndex st wfail false filePath fileOk db pc now lines =
        ⟨st, false, .err .storeError⟩) ∧
    (fileOk = false →
      createIndex st wfail false filePath fileOk db pc now lines =
        ⟨st, false, .err .fileNotFound⟩) ∧
    (createIndex st wfail true filePath fileOk db pc now lines =
        ⟨st, true, .err .busy⟩) := by
  refine ⟨?_, ?_, ?_⟩
  · intro hw hf
    simp [createIndex, createIndexWith, hw, hf]
  · intro hf
    simp [createIndex, createIndexWith, hf]
  · simp [createIndex, createIndexWith]

/-- Witness for the amended C9: a failing database-folder write aborts a
concrete run with the store untouched and the busy flag released. -/
theorem C9_amended_store_error_scope_witness :
    createIndex [] (fun k => k == str "db1/") false (str "f") true
      (str "db1") none 0 [] = ⟨[], false, .err .storeError⟩ :=
  (C9_amended_store_error_scope [] (fun k => k == str "db1/") (str "f") true
    (str "db1") none 0 []).1 (by decide) rfl

/-! ### Per-database stats (`getSingleDatabaseStats`,
indexer.service.ts:1011-1054) -/

structure DbStats where
  databaseId : Str
  totalRecords : Nat
  partitions : Nat
  prefixes : List Str
  createdAt : Nat
deriving DecidableEq

inductive StatsError where
  | databaseMissing : StatsError
  | metadataMissing : StatsError
deriving DecidableEq

/-- `IndexerService.getSingleDatabaseStats`: check the database directory,
read the metadata blob (failing if absent or unreadable), list the prefix
folders, and report `totalRecords` and `partitions` from the METADATA
record while returning the store-derived `prefixes` list. -/
def getSingleDatabaseStats (st : Store) (databaseId : Str) :
    Except StatsError DbStats :=
  let dbFolder := databaseId ++ str "/"
  if ¬ storePrefixExists st dbFolder then .error .databaseMissing
  else
    match storeGet st (dbFolder ++ str "metadata.json") with
    | some (.metaBlob md) =>
      .ok { databaseId := databaseId, totalRecords := md.totalRecords,
            partitions := md.partitionsCount,
            prefixes := listFolders st dbFolder, createdAt := md.createdAt }
    | _ => .error .metadataMissing

/-- A database whose advisory metadata `partitionsCount` (5) disagrees
with the number of prefixes actually present in the store (2). -/
def c8Store : Store :=
  [(str "db1/", .folderMarker),
   (str "db1/700/", .folderMarker),
   (str "db1/700/data.json", .dataBlob []),
   (str "db1/701/", .folderMarker),
   (str "db1/701/data.json", .dataBlob []),
   (str "db1/metadata.json", .metaBlob
     { id := natToStr 1, originalFileName := str "f.txt", totalRecords := 42,
       partitionsCount := 5, partitionSize := 10000, createdAt := 1,
       phoneColumn := str "phone" })]

/-- C8 counterexample: the stats operation reports `partitions = 5`, the
advisory `partitionsCount` stored in the metadata blob, even though the
store lists only 2 prefixes under the database container — it does not
compute the partition count as `|listPrefixes(databaseId)|`. -/
theorem C8_counterexample :
    getSingleDatabaseStats c8Store (str "db1") =
      .ok { databaseId := str "db1", totalRecords := 42, partitions := 5,
            prefixes := [str "700", str "701"], createdAt := 1 } ∧
    (listFolders c8Store (str "db1/")).length = 2 ∧ (5 : Nat) ≠ 2 :=
  ⟨rfl, rfl, by decide⟩

/-- C8 amended: when the database container exists and its metadata blob
is readable, stats returns the store-derived `prefixes` list (from which
the actual partition count is obtainable as its length), but the
`partitions` count field it reports is the advisory `partitionsCount`
taken from the metadata blob, not `|listPrefixes(databaseId)|`. -/
theorem C8_amended_stats_reports_advisory_count (st : Store) (db : Str)
    (md : IndexMetadata)
    (h : storeGet st (db ++ str "/metadata.json") = some (.metaBlob md))
    (hx : storePrefixExists st (db ++ str "/") = true) :
    getSingleDatabaseStats st db =
      .ok { databaseId := db, totalRecords := md.totalRecords,
            partitions := md.partitionsCount,
            prefixes := listFolders st (db ++ str "/"),
            createdAt := md.createdAt } := by
  have h' : storeGet st (db ++ (str "/" ++ str "metadata.json")) =
      some (.metaBlob md) := h
  simp [getSingleDatabaseStats, hx]
  rw [h']

/-- Witness for the amended C8 on the concrete divergent store. -/
theorem C8_amended_stats_reports_advisory_count_witness :
    getSingleDatabaseStats c8Store (str "db1") =
      .ok { databaseId := str "db1", totalRecords := 42, partitions := 5,
            prefixes := listFolders c8Store (str "db1" ++ str "/"),
            createdAt := 1 } :=
  C8_amended_stats_reports_advisory_count c8Store (str "db1")
    { id := natToStr 1, originalFileName := str "f.txt", totalRecords := 42,
      partitionsCount := 5, partitionSize := 10000, createdAt := 1,
      phoneColumn := str "phone" } (by decide) (by decide)

/-! ### Federated batched lookup (`findByPhoneParallel`,
indexer.service.ts:763-827) -/

/-- The two failure outcomes of `findByPhoneParallel`: the
`NotFoundException` thrown when the database listing is empty, and the
federated `PhoneNumberNotFoundException` after exhausting all batches. -/
inductive FedError where
  | noDatabases : FedError
  | notFound : FedError
deriving DecidableEq

/-- `x7b database: databaseId, ...result x7d`: the record returned for a hit,
with the database id prepended and the record's own fields spread over
it. -/
def spreadDb (db : Str) (r : JsRecord) : JsRecord :=
  r.foldl (fun o kv => objSet o kv.1 kv.2) (objSet [] (str "database") db)

/-- One per-database probe inside a batch: a successful lookup yields the
tagged record; every failure — `PhoneNumberNotFoundException` or any
other error (collected into the run's error list) — yields `null`. -/
def dbLookup (st : Store) (phone : Str) (db : Str) : Option JsRecord :=
  match findByPhone st db phone with
  | .ok r => some (spreadDb db r)
  | .error _ => none

/-- The non-null results of one batch, in the batch's array order
(`batchResults.filter(Boolean)`). -/
def searchBatch (st : Store) (phone : Str) (batch : List Str) : List JsRecord :=
  batch.filterMap (dbLookup st phone)

/-- `databases.slice(i, i + batchSize)` for the source's fixed
`batchSize = 3`: consecutive batches of width 3 in listing order. -/
def chunks3 : List Str → List (List Str)
  | [] => []
  | [a] => [[a]]
  | [a, b] => [[a, b]]
  | a :: b :: c :: rest => [a, b, c] :: chunks3 rest

/-- The batch loop of `findByPhoneParallel`: process batches in order,
stopping at the first batch with a non-empty result set and returning its
first result.  The second component instruments the model with the list
of databases against which point lookups are issued, in order. -/
def runBatches (st : Store) (phone : Str) :
    List (List Str) → Except FedError JsRecord × List Str
  | [] => (.error .notFound, [])
  | b :: rest =>
    match searchBatch st phone b with
    | r :: _ => (.ok r, b)
    | [] =>
      let rq := runBatches st phone rest
      (rq.1, b ++ rq.2)

/-- `IndexerService.findByPhoneParallel`: list all databases (failing with
a distinct error when there are none), then run the batch loop. -/
def findByPhoneParallel (st : Store) (phone : Str) :
    Except FedError JsRecord × List Str :=
  let dbs := getAllDatabases st
  if dbs = [] then (.error .noDatabases, [])
  else runBatches st phone (chunks3 dbs)

theorem chunks3_join : ∀ l : List Str, (chunks3 l).flatten = l
  | [] => rfl
  | [_] => rfl
  | [_, _] => rfl
  | a :: b :: c :: rest => by
    simp only [chunks3, List.flatten_cons, chunks3_join rest]
    rfl

theorem chunks3_mem : ∀ (l : List Str) (b : List Str), b ∈ chunks3 l →
    b ≠ [] ∧ b.length ≤ 3
  | [], b, h => by simp [chunks3] at h
  | [a], b, h => by
    simp [chunks3] at h
    subst h
    exact ⟨by simp, by simp⟩
  | [a, a'], b, h => by
    simp [chunks3] at h
    subst h
    exact ⟨by simp, by simp⟩
  | a :: a' :: a'' :: rest, b, h => by
    simp only [chunks3, List.mem_cons] at h
    rcases h with h | h
    · subst h
      exact ⟨by simp, by simp⟩
    · exact chunks3_mem rest b h

theorem runBatches_all_empty (st : Store) (phone : Str) :
    ∀ bs : List (List Str), (∀ b ∈ bs, searchBatch st phone b = []) →
    runBatches st phone bs = (.error .notFound, bs.flatten)
  | [], _ => rfl
  | b :: rest, h => by
    have hb : searchBatch st phone b = [] := h b (by simp)
    have ih := runBatches_all_empty st phone rest fun b' hb' => h b' (by simp [hb'])
    simp [runBatches, hb, ih]

theorem runBatches_first_match (st : Store) (phone : Str) :
    ∀ (bs1 : List (List Str)) (b : List Str) (bs2 : List (List Str))
      (r : JsRecord) (rs : List JsRecord),
      (∀ b' ∈ bs1, searchBatch st phone b' = []) →
      searchBatch st phone b = r :: rs →
      runBatches st phone (bs1 ++ b :: bs2) = (.ok r, bs1.flatten ++ b)
  | [], b, bs2, r, rs, _, hb => by simp [runBatches, hb]
  | b1 :: rest, b, bs2, r, rs, h1, hb => by
    have hb1 : searchBatch st phone b1 = [] := h1 b1 (by simp)
    have ih := runBatches_first_match st phone rest b bs2 r rs
      (fun b' hb' => h1 b' (by simp [hb'])) hb
    simp [runBatches, hb1, ih]

/-- C4 counterexample: with an empty database listing the federated
lookup fails with the distinct "no databases" `NotFoundException`, not
the federated `PhoneNumberNotFoundException` (`RecordNotFound`), although
no database matches and all (zero) batches are exhausted. -/
theorem C4_counterexample :
    findByPhoneParallel [] (str "79991234567") = (.error .noDatabases, []) ∧
    FedError.noDatabases ≠ FedError.notFound :=
  ⟨rfl, by decide⟩

/-- C4 amended: the listing is split into consecutive batches of width at
most 3 preserving listing order (joining the batches restores the
listing), batches are processed strictly in order, the first match in the
earliest matching batch's array order is returned, point lookups are
issued exactly against the databases up to and including the first
matching batch, per-database failures count as no-match, and — provided
the listing is non-empty — exhausting all batches without a match fails
with the federated `RecordNotFound`; an empty listing instead fails with
a distinct "no databases" error. -/
theorem C4_amended_batched_federated_search (st : Store) (phone : Str)
    (dbs : List Str) (hdbs : dbs = getAllDatabases st)
    (bs : List (List Str)) (hbs : bs = chunks3 dbs) :
    (bs.flatten = dbs ∧ ∀ b ∈ bs, b ≠ [] ∧ b.length ≤ 3) ∧
    (dbs ≠ [] → (∀ b ∈ bs, searchBatch st phone b = []) →
      findByPhoneParallel st phone = (.error .notFound, dbs)) ∧
    (∀ (bs1 : List (List Str)) (b : List Str) (bs2 : List (List Str))
       (r : JsRecord) (rs : List JsRecord),
      dbs ≠ [] → bs = bs1 ++ b :: bs2 →
      (∀ b' ∈ bs1, searchBatch st phone b' = []) →
      searchBatch st phone b = r :: rs →
      findByPhoneParallel st phone = (.ok r, bs1.flatten ++ b)) ∧
    (dbs = [] → findByPhoneParallel st phone = (.error .noDatabases, [])) := by
  subst hdbs
  subst hbs
  refine ⟨⟨chunks3_join _, chunks3_mem _⟩, ?_, ?_, ?_⟩
  · intro hne hall
    have := runBatches_all_empty st phone (chunks3 (getAllDatabases st)) hall
    simp [findByPhoneParallel, hne, this, chunks3_join]
  · intro bs1 b bs2 r rs hne hsplit h1 hb
    have := runBatches_first_match st phone bs1 b bs2 r rs h1 hb
    rw [← hsplit] at this
    simp [findByPhoneParallel, hne, this]
  · intro he
    simp [findByPhoneParallel, he]

/-- A store with two databases: `a` contains an empty prefix blob, `b`
contains the target phone.  Listing order is [a, b]; both fall in the
first (and only) batch. -/
def c4Store : Store :=
  [(str "a/", .folderMarker),
   (str "a/700/", .folderMarker),
   (str "a/700/data.json", .dataBlob []),
   (str "b/", .folderMarker),
   (str "b/799/", .folderMarker),
   (str "b/799/data.json", .dataBlob [(str "79991234567", recSample)])]

/-- The tagged hit returned from database `b`. -/
def c4Hit : JsRecord :=
  [(str "database", str "b"), (str "phone", str "79991234567"),
   (str "formattedPhone", str "+7 (999) 123-45-67")]

/-- Witness for the amended C4: on the concrete two-database store the
federated lookup returns the hit from `b` in the first batch, having
queried exactly the batch's databases [a, b]. -/
theorem C4_amended_batched_federated_search_witness :
    findByPhoneParallel c4Store (str "79991234567") =
      (.ok c4Hit, [str "a", str "b"]) :=
  (C4_amended_batched_federated_search c4Store (str "79991234567")
      [str "a", str "b"] (by decide) [[str "a", str "b"]] (by decide)).2.2.1
    [] [str "a", str "b"] [] c4Hit [] (by decide) rfl (by simp) (by decide)

/-! ### Progressive lookup (`findByPhoneWithProgress`,
indexer.service.ts:829-956) -/

/-- One progress event pushed to the caller's callback. -/
structure ProgressEvent where
  currentDatabase : Str
  progress : Nat
  searching : Bool
  found : Bool
  result : Option JsRecord
  isComplete : Bool
  totalDatabases : Nat
  currentDatabaseIndex : Nat
  error : Option Str
deriving DecidableEq

/-- `Math.round((i / total) * 100)` on the exact rational (half rounds
up), used for the in-loop progress percentages. -/
def jsRound100 (i total : Nat) : Nat := (200 * i + total) / (2 * total)

/-- The message of the exception a failed `findByPhone` carries
(indexer.service.ts:662,685,711,743,750). -/
def findErrorMessage (phone db : Str) : FindError → Str
  | .databaseNotFound => str "База данных " ++ db ++ str " не найдена"
  | .invalidPhone => str "Неверный формат номера телефона: " ++ phone
  | .phoneNotFound =>
    str "Телефон " ++ phone ++ str " не найден в базе данных " ++ db
  | .dataAccess => str "Ошибка доступа к данным в базе " ++ db

/-- `true` for a successful lookup. -/
def isHit : Except FindError JsRecord → Bool
  | .ok _ => true
  | .error _ => false

/-- The `searching: true` event emitted before probing a database. -/
def searchingEvt (db : Str) (i total : Nat) : ProgressEvent :=
  { currentDatabase := db, progress := jsRound100 i total, searching := true,
    found := false, result := none, isComplete := false,
    totalDatabases := total, currentDatabaseIndex := i, error := none }

/-- The terminal event emitted when the record is found in database
`db`. -/
def foundEvt (db : Str) (r : JsRecord) (i total : Nat) : ProgressEvent :=
  { currentDatabase := db, progress := 100, searching := false,
    found := true, result := some (spreadDb db r), isComplete := true,
    totalDatabases := total, currentDatabaseIndex := i + 1, error := none }

/-- The non-terminal event emitted when a database probe throws an error
other than `PhoneNumberNotFoundException`. -/
def searchErrEvt (phone db : Str) (e : FindError) (i total : Nat) :
    ProgressEvent :=
  { currentDatabase := db, progress := jsRound100 i total, searching := false,
    found := false, result := none, isComplete := false,
    totalDatabases := total, currentDatabaseIndex := i,
    error := some (str "Ошибка поиска в базе " ++ db ++ str ": " ++
      findErrorMessage phone db e) }

/-- The terminal event after exhausting all databases without a match. -/
def exhaustedEvt (phone lastDb : Str) (total : Nat) : ProgressEvent :=
  { currentDatabase := lastDb, progress := 100, searching := false,
    found := false, result := none, isComplete := true,
    totalDatabases := total, currentDatabaseIndex := total,
    error := some (str "Телефон " ++ phone ++
      str " не найден ни в одной базе данных") }

/-- The single terminal event emitted when there are no databases. -/
def noDatabasesEvt : ProgressEvent :=
  { currentDatabase := [], progress := 100, searching := false,
    found := false, result := none, isComplete := true,
    totalDatabases := 0, currentDatabaseIndex := 0,
    error := some (str "Нет доступных баз данных для поиска") }

/-- The per-database loop of `findByPhoneWithProgress`: emit a
`searching` event, run the point lookup, and either terminate with the
found event, skip a `PhoneNumberNotFoundException` silently, or emit a
non-terminal error event and continue; after the last database, emit the
terminal not-found event naming the listing's last database. -/
def progressLoop (st : Store) (phone : Str) (total : Nat) (lastDb : Str) :
    Nat → List Str → List ProgressEvent
  | _, [] => [exhaustedEvt phone lastDb total]
  | i, db :: rest =>
    match findByPhone st db phone with
    | .ok r => [searchingEvt db i total, foundEvt db r i total]
    | .error .phoneNotFound =>
      searchingEvt db i total :: progressLoop st phone total lastDb (i + 1) rest
    | .error e =>
      searchingEvt db i total :: searchErrEvt phone db e i total ::
        progressLoop st phone total lastDb (i + 1) rest

/-- `IndexerService.findByPhoneWithProgress`: the ordered sequence of
events pushed to the progress callback.  With no databases only the
terminal event is emitted; otherwise an initial event for the first
database precedes the loop. -/
def findByPhoneWithProgress (st : Store) (phone : Str) : List ProgressEvent :=
  let dbs := getAllDatabases st
  if dbs = [] then [noDatabasesEvt]
  else
    searchingEvt (dbs.headD []) 0 dbs.length ::
      progressLoop st phone dbs.length (dbs.getLastD []) 0 dbs

theorem progressLoop_spec (st : Store) (phone : Str) (total : Nat)
    (lastDb : Str) :
    ∀ (dbs : List Str) (i : Nat), ∃ pre last,
      progressLoop st phone total lastDb i dbs = pre ++ [last] ∧
      (∀ e ∈ pre, e.isComplete = false) ∧
      last.isComplete = true ∧
      last.found = dbs.any (fun db => isHit (findByPhone st db phone)) ∧
      (last.found = true → last.progress = 100 ∧ last.result.isSome = true)
  | [], i => by
    refine ⟨[], exhaustedEvt phone lastDb total, rfl, by simp, rfl, by simp [exhaustedEvt], ?_⟩
    intro h
    simp [exhaustedEvt] at h
  | db :: rest, i => by
    rcases hfb : findByPhone st db phone with e | r
    · obtain ⟨pre, last, heq, hpre, hlast, hfound, hprog⟩ :=
        progressLoop_spec st phone total lastDb rest (i + 1)
      cases e with
      | phoneNotFound =>
        refine ⟨searchingEvt db i total :: pre, last,
          by simp [progressLoop, hfb, heq], ?_, hlast, ?_, hprog⟩
        · intro e he
          rcases List.mem_cons.mp he with he | he
          · subst he; rfl
          · exact hpre e he
        · simp [hfound, hfb, isHit]
      | databaseNotFound =>
        refine ⟨searchingEvt db i total ::
            searchErrEvt phone db .databaseNotFound i total :: pre, last,
          by simp [progressLoop, hfb, heq], ?_, hlast, ?_, hprog⟩
        · intro e he
          rcases List.mem_cons.mp he with he | he
          · subst he; rfl
          · rcases List.mem_cons.mp he with he | he
            · subst he; rfl
            · exact hpre e he
        · simp [hfound, hfb, isHit]
      | invalidPhone =>
        refine ⟨searchingEvt db i total ::
            searchErrEvt phone db .invalidPhone i total :: pre, last,
          by simp [progressLoop, hfb, heq], ?_, hlast, ?_, hprog⟩
        · intro e he
          rcases List.mem_cons.mp he with he | he
          · subst he; rfl
          · rcases List.mem_cons.mp he with he | he
            · subst he; rfl
            · exact hpre e he
        · simp [hfound, hfb, isHit]
      | dataAccess =>
        refine ⟨searchingEvt db i total ::
            searchErrEvt phone db .dataAccess i total :: pre, last,
          by simp [progressLoop, hfb, heq], ?_, hlast, ?_, hprog⟩
        · intro e he
          rcases List.mem_cons.mp he with he | he
          · subst he; rfl
          · rcases List.mem_cons.mp he with he | he
            · subst he; rfl
            · exact hpre e he
        · simp [hfound, hfb, isHit]
    · refine ⟨[searchingEvt db i total], foundEvt db r i total,
        by simp [progressLoop, hfb], ?_, rfl, ?_, ?_⟩
      · intro e he
        simp at he
        subst he
        rfl
      · simp [hfb, isHit, foundEvt]
      · intro
        exact ⟨rfl, rfl⟩

/-- C5: for every store and input, the progressive search emits exactly
one `isComplete = true` event and it is the last event emitted; the
terminal event's `found` flag is set exactly when some listed database
yields a hit, in which case it carries `progress = 100` and a populated
result; and with an empty database listing the terminal event is the only
event emitted (with `found = false`). -/
theorem C5_progress_terminates_once (st : Store) (phone : Str) :
    ∃ pre last,
      findByPhoneWithProgress st phone = pre ++ [last] ∧
      (∀ e ∈ pre, e.isComplete = false) ∧
      last.isComplete = true ∧
      last.found = (getAllDatabases st).any
        (fun db => isHit (findByPhone st db phone)) ∧
      (last.found = true → last.progress = 100 ∧ last.result.isSome = true) ∧
      (getAllDatabases st = [] → pre = [] ∧ last.found = false) := by
  by_cases hdbs : getAllDatabases st = []
  · refine ⟨[], noDatabasesEvt, by simp [findByPhoneWithProgress, hdbs],
      by simp, rfl, ?_, ?_, ?_⟩
    · simp [hdbs, noDatabasesEvt]
    · intro h
      simp [noDatabasesEvt] at h
    · intro
      exact ⟨rfl, rfl⟩
  · obtain ⟨pre, last, heq, hpre, hlast, hfound, hprog⟩ :=
      progressLoop_spec st phone (getAllDatabases st).length
        ((getAllDatabases st).getLastD []) (getAllDatabases st) 0
    refine ⟨searchingEvt ((getAllDatabases st).headD []) 0
        (getAllDatabases st).length :: pre, last, ?_, ?_, hlast, hfound, hprog,
      fun h => absurd h hdbs⟩
    · simp [findByPhoneWithProgress, hdbs]
      rw [List.getLastD_eq_getLast?] at heq
      exact heq
    · intro e he
      rcases List.mem_cons.mp he with he | he
      · subst he; rfl
      · exact hpre e he

/-- Witness for C5: the concrete single-database store where the phone is
found. -/
theorem C5_progress_terminates_once_witness :
    ∃ pre last,
      findByPhoneWithProgress c2Store (str "79991234567") = pre ++ [last] ∧
      (∀ e ∈ pre, e.isComplete = false) ∧
      last.isComplete = true ∧
      last.found = (getAllDatabases c2Store).any
        (fun db => isHit (findByPhone c2Store db (str "79991234567"))) ∧
      (last.found = true → last.progress = 100 ∧ last.result.isSome = true) ∧
      (getAllDatabases c2Store = [] → pre = [] ∧ last.found = false) :=
  C5_progress_terminates_once c2Store (str "79991234567")

/-! ### C10: every written partition blob keys records by their own
`phone` field -/

theorem objGet_objSet_self : ∀ (r : JsRecord) (k v : Str),
    objGet (objSet r k v) k = some v
  | [], k, v => by simp [objSet, objGet]
  | kv :: rest, k, v => by
    by_cases h : kv.1 = k
    · simp [objSet, h, objGet]
    · simp [objSet, h, objGet, objGet_objSet_self rest k v]

theorem objGet_objSet_ne : ∀ (r : JsRecord) (k v k' : Str), k' ≠ k →
    objGet (objSet r k v) k' = objGet r k'
  | [], k, v, k', h => by
    have h1 : ¬ (k = k') := fun hc => h hc.symm
    simp [objSet, objGet, h1]
  | kv :: rest, k, v, k', h => by
    by_cases hk : kv.1 = k
    · have h1 : ¬ (k = k') := fun hc => h hc.symm
      simp [objSet, objGet, hk, h1]
    · by_cases hk' : kv.1 = k'
      · simp [objSet, objGet, hk, hk', h]
      · simp [objSet, objGet, hk, hk', objGet_objSet_ne rest k v k' h]

/-- The record built by `extractPipeDelimitedData` carries in `phone` the
very normalization of field 4 that the buffering step uses as the key,
and in `formattedPhone` its formatting. -/
theorem extract_phone_fields (fields headers : List Str) (np : Str)
    (h : normalizePhone (trimStr (fields.getD 4 [])) = some np) :
    objGet (extractPipeDelimitedData fields headers) (str "phone") = some np ∧
    objGet (extractPipeDelimitedData fields headers) (str "formattedPhone") =
      some (formatPhoneNumber np) := by
  unfold extractPipeDelimitedData
  rw [h]
  have hs : ∀ (r : JsRecord) (v : Str),
      objGet (objSet r (str "snils") v) (str "phone") = objGet r (str "phone") :=
    fun r v => objGet_objSet_ne r _ v _ (by decide)
  have hi : ∀ (r : JsRecord) (v : Str),
      objGet (objSet r (str "inn") v) (str "phone") = objGet r (str "phone") :=
    fun r v => objGet_objSet_ne r _ v _ (by decide)
  have he : ∀ (r : JsRecord) (v : Str),
      objGet (objSet r (str "email") v) (str "phone") = objGet r (str "phone") :=
    fun r v => objGet_objSet_ne r _ v _ (by decide)
  have hf : ∀ (r : JsRecord) (v : Str),
      objGet (objSet r (str "formattedPhone") v) (str "phone") =
        objGet r (str "phone") :=
    fun r v => objGet_objSet_ne r _ v _ (by decide)
  have hs' : ∀ (r : JsRecord) (v : Str),
      objGet (objSet r (str "snils") v) (str "formattedPhone") =
        objGet r (str "formattedPhone") :=
    fun r v => objGet_objSet_ne r _ v _ (by decide)
  have hi' : ∀ (r : JsRecord) (v : Str),
      objGet (objSet r (str "inn") v) (str "formattedPhone") =
        objGet r (str "formattedPhone") :=
    fun r v => objGet_objSet_ne r _ v _ (by decide)
  have he' : ∀ (r : JsRecord) (v : Str),
      objGet (objSet r (str "email") v) (str "formattedPhone") =
        objGet r (str "formattedPhone") :=
    fun r v => objGet_objSet_ne r _ v _ (by decide)
  constructor
  · by_cases h5 : 5 < headers.length <;> by_cases h6 : 6 < headers.length <;>
      by_cases h7 : 7 < headers.length <;>
      simp [h5, h6, h7, hs, hi, he, hf, objGet_objSet_self]
  · by_cases h5 : 5 < headers.length <;> by_cases h6 : 6 < headers.length <;>
      by_cases h7 : 7 < headers.length <;>
      simp [h5, h6, h7, hs', hi', he', objGet_objSet_self]

/-- Every record of a partition mapping is keyed by its own canonical
phone: `phone` equals the key, `formattedPhone` is the key's formatting,
and the key is an 11-digit string starting with '7'. -/
def goodBlobMap (m : List (Str × JsRecord)) : Prop :=
  ∀ k r, (k, r) ∈ m →
    objGet r (str "phone") = some k ∧
    objGet r (str "formattedPhone") = some (formatPhoneNumber k) ∧
    k.length = 11 ∧ k.head? = some '7'

def goodBuffer (buf : List (Str × List (Str × JsRecord))) : Prop :=
  ∀ p m, (p, m) ∈ buf → goodBlobMap m

/-- Every data blob of `st` either already was in `st0` or satisfies the
keyed-by-phone invariant. -/
def goodStore (st0 st : Store) : Prop :=
  ∀ k m, (k, BlobContent.dataBlob m) ∈ st →
    (k, BlobContent.dataBlob m) ∈ st0 ∨ goodBlobMap m

theorem goodStore_refl (st : Store) : goodStore st st := fun _ _ h => Or.inl h

theorem mem_putStore : ∀ (st : Store) (k : Str) (v : BlobContent)
    (p : Str × BlobContent), p ∈ putStore st k v → p = (k, v) ∨ p ∈ st
  | [], k, v, p, h => by
    simp [putStore] at h
    exact Or.inl h
  | kv :: rest, k, v, p, h => by
    unfold putStore at h
    by_cases hk : kv.1 = k
    · rw [if_pos hk] at h
      rcases List.mem_cons.mp h with h | h
      · exact Or.inl h
      · exact Or.inr (List.mem_cons_of_mem _ h)
    · rw [if_neg hk] at h
      rcases List.mem_cons.mp h with h | h
      · exact Or.inr (h ▸ List.mem_cons_self _ _)
      · rcases mem_putStore rest k v p h with h | h
        · exact Or.inl h
        · exact Or.inr (List.mem_cons_of_mem _ h)

theorem goodStore_put_marker {st0 st : Store} (k : Str)
    (h : goodStore st0 st) : goodStore st0 (putStore st k .folderMarker) := by
  intro k' m hm
  rcases mem_putStore st k _ _ hm with he | he
  · simp [Prod.ext_iff] at he
  · exact h k' m he

theorem goodStore_put_meta {st0 st : Store} (k : Str) (md : IndexMetadata)
    (h : goodStore st0 st) : goodStore st0 (putStore st k (.metaBlob md)) := by
  intro k' m hm
  rcases mem_putStore st k _ _ hm with he | he
  · simp [Prod.ext_iff] at he
  · exact h k' m he

theorem goodStore_put_data {st0 st : Store} {k : Str}
    {m : List (Str × JsRecord)} (h : goodStore st0 st) (hm : goodBlobMap m) :
    goodStore st0 (putStore st k (.dataBlob m)) := by
  intro k' m' hm'
  rcases mem_putStore st k _ _ hm' with he | he
  · have h2 : k' = k ∧ m' = m := by
      simpa [Prod.ext_iff] using he
    exact Or.inr (h2.2 ▸ hm)
  · exact h k' m' he

theorem saveBuffer_good {st0 : Store} (wf : Str → Bool) (dbF : Str) :
    ∀ (buf : List (Str × List (Str × JsRecord))) (st : Store),
      goodStore st0 st → goodBuffer buf →
      goodStore st0 (saveBufferToS3 wf dbF st buf)
  | [], st, hst, _ => hst
  | pv :: rest, st, hst, hbuf => by
    have hrest : goodBuffer rest := fun p m hm => hbuf p m (List.mem_cons_of_mem _ hm)
    have hhead : goodBlobMap pv.2 := hbuf pv.1 pv.2 (by simp)
    unfold saveBufferToS3
    by_cases h1 : wf (dbF ++ pv.1 ++ str "/")
    · simp only [h1, if_true]
      exact saveBuffer_good wf dbF rest st hst hrest
    · simp only [h1, if_false]
      by_cases h2 : wf (dbF ++ pv.1 ++ str "/" ++ str "data.json")
      · simp only [h2, if_true]
        exact saveBuffer_good wf dbF rest _ (goodStore_put_marker _ hst) hrest
      · simp only [h2, if_false]
        exact saveBuffer_good wf dbF rest _
          (goodStore_put_data (goodStore_put_marker _ hst) hhead) hrest

theorem objSet'_mem : ∀ (m : List (Str × JsRecord)) (k : Str) (r : JsRecord)
    (p : Str × JsRecord), p ∈ objSet' m k r → p = (k, r) ∨ p ∈ m
  | [], k, r, p, h => by
    simp [objSet'] at h
    exact Or.inl h
  | kv :: rest, k, r, p, h => by
    unfold objSet' at h
    by_cases hk : kv.1 = k
    · rw [if_pos hk] at h
      rcases List.mem_cons.mp h with h | h
      · exact Or.inl h
      · exact Or.inr (List.mem_cons_of_mem _ h)
    · rw [if_neg hk] at h
      rcases List.mem_cons.mp h with h | h
      · exact Or.inr (h ▸ List.mem_cons_self _ _)
      · rcases objSet'_mem rest k r p h with h | h
        · exact Or.inl h
        · exact Or.inr (List.mem_cons_of_mem _ h)

theorem bufInsert_good : ∀ (buf : List (Str × List (Str × JsRecord)))
    (pfx np : Str) (rec : JsRecord), goodBuffer buf →
    objGet rec (str "phone") = some np →
    objGet rec (str "formattedPhone") = some (formatPhoneNumber np) →
    np.length = 11 → np.head? = some '7' →
    goodBuffer (bufInsert buf pfx np rec)
  | [], pfx, np, rec, _, h1, h2, h3, h4 => by
    intro p m hm
    simp [bufInsert] at hm
    intro k r hkr
    rw [hm.2] at hkr
    simp at hkr
    obtain ⟨hk, hr⟩ := hkr
    subst hk
    subst hr
    exact ⟨h1, h2, h3, h4⟩
  | pv :: rest, pfx, np, rec, hbuf, h1, h2, h3, h4 => by
    have hrest : goodBuffer rest := fun p m hm => hbuf p m (List.mem_cons_of_mem _ hm)
    have hhead : goodBlobMap pv.2 := hbuf pv.1 pv.2 (by simp)
    intro p m hm
    unfold bufInsert at hm
    by_cases hk : pv.1 = pfx
    · rw [if_pos hk] at hm
      rcases List.mem_cons.mp hm with hm | hm
      · have hm2 : m = objSet' pv.2 np rec := congrArg Prod.snd hm
        intro k r hkr
        rw [hm2] at hkr
        rcases objSet'_mem pv.2 np rec (k, r) hkr with he | he
        · have hk2 : k = np ∧ r = rec := by simpa [Prod.ext_iff] using he
          obtain ⟨hka, hkb⟩ := hk2
          subst hka
          subst hkb
          exact ⟨h1, h2, h3, h4⟩
        · exact hhead k r he
      · exact hrest p m hm
    · rw [if_neg hk] at hm
      rcases List.mem_cons.mp hm with hm | hm
      · have hm2 : m = pv.2 := congrArg Prod.snd hm
        intro k r hkr
        exact hhead k r (hm2 ▸ hkr)
      · exact bufInsert_good rest pfx np rec hrest h1 h2 h3 h4 p m hm

theorem stepLine_good {st0 : Store} (c : Nat) (wf : Str → Bool) (dbF : Str)
    (ps : IngestState) (line : Str)
    (hst : goodStore st0 ps.store) (hbuf : goodBuffer ps.buffer) :
    goodStore st0 (stepLine c wf dbF ps line).store ∧
    goodBuffer (stepLine c wf dbF ps line).buffer := by
  unfold stepLine
  dsimp only
  by_cases hfl : ps.isFirstLine
  · simp only [hfl, if_true]
    exact ⟨hst, hbuf⟩
  · rw [Bool.not_eq_true] at hfl
    rw [hfl]
    simp only [Bool.false_eq_true, if_false]
    by_cases hlen : 5 ≤ (splitOnChar '|' (jsonUnwrapLine line)).length
    · rw [if_pos hlen]
      by_cases hph : (if 4 < (splitOnChar '|' (jsonUnwrapLine line)).length then
          trimStr ((splitOnChar '|' (jsonUnwrapLine line)).getD 4 []) else []) ≠ []
      · rw [if_pos hph]
        rcases hnp : normalizePhone (if 4 < (splitOnChar '|' (jsonUnwrapLine line)).length then
            trimStr ((splitOnChar '|' (jsonUnwrapLine line)).getD 4 []) else []) with _ | np
        · simp only [hnp]
          exact ⟨hst, hbuf⟩
        · simp only [hnp]
          have h4 : 4 < (splitOnChar '|' (jsonUnwrapLine line)).length := by omega
          rw [if_pos h4] at hnp
          obtain ⟨hl, hh, _⟩ := normalizePhone_some hnp
          obtain ⟨hx1, hx2⟩ := extract_phone_fields (splitOnChar '|' (jsonUnwrapLine line))
            ps.headers np hnp
          have hgood : goodBuffer (bufInsert ps.buffer (np.take 3) np
              (extractPipeDelimitedData (splitOnChar '|' (jsonUnwrapLine line)) ps.headers)) :=
            bufInsert_good _ _ _ _ hbuf hx1 hx2 hl hh
          by_cases hc : c ≤ ps.processed + 1
          · rw [if_pos hc]
            refine ⟨?_, ?_⟩
            · exact saveBuffer_good wf dbF _ _ hst hgood
            · intro p m hm
              simp at hm
          · rw [if_neg hc]
            exact ⟨hst, hgood⟩
      · rw [if_neg hph]
        exact ⟨hst, hbuf⟩
    · rw [if_neg hlen]
      exact ⟨hst, hbuf⟩

theorem foldl_stepLine_good {st0 : Store} (c : Nat) (wf : Str → Bool)
    (dbF : Str) :
    ∀ (lines : List Str) (ps : IngestState),
      goodStore st0 ps.store → goodBuffer ps.buffer →
      goodStore st0 ((lines.foldl (stepLine c wf dbF) ps).store) ∧
      goodBuffer ((lines.foldl (stepLine c wf dbF) ps).buffer)
  | [], ps, h1, h2 => ⟨h1, h2⟩
  | l :: rest, ps, h1, h2 => by
    rw [List.foldl_cons]
    obtain ⟨h1', h2'⟩ := stepLine_good c wf dbF ps l h1 h2
    exact foldl_stepLine_good c wf dbF rest _ h1' h2'

/-- The full run preserves the keyed-by-phone invariant for every data
blob it writes. -/
theorem createIndexWith_good (chunkSize : Nat) (st : Store)
    (wfail : Str → Bool) (busy : Bool) (filePath : Str) (fileOk : Bool)
    (db : Str) (pc : Option Str) (now : Nat) (lines : List Str) :
    goodStore st (createIndexWith chunkSize st wfail busy filePath fileOk db
      pc now lines).store := by
  unfold createIndexWith
  by_cases hb : busy
  · simp only [hb, if_true]
    exact goodStore_refl st
  · simp only [hb, if_false, not_false_eq_true, if_true, Bool.not_eq_true]
    by_cases hf : fileOk
    · simp only [hf, not_true_eq_false, if_false]
      by_cases hw : wfail (db ++ str "/")
      · simp only [hw, if_true]
        exact goodStore_refl st
      · simp only [hw, if_false]
        have hinit : goodStore st (putStore st (db ++ str "/") .folderMarker) :=
          goodStore_put_marker _ (goodStore_refl st)
        obtain ⟨hst, hbuf⟩ := foldl_stepLine_good chunkSize wfail (db ++ str "/")
          lines ⟨putStore st (db ++ str "/") .folderMarker, [], 0, true, [], 0, 0, []⟩
          hinit (fun p m hm => by simp at hm)
        by_cases hrem : (lines.foldl (stepLine chunkSize wfail (db ++ str "/"))
            ⟨putStore st (db ++ str "/") .folderMarker, [], 0, true, [], 0, 0, []⟩).buffer ≠ []
        · rw [if_pos hrem]
          have hst2 := saveBuffer_good wfail (db ++ str "/") _ _ hst hbuf
          by_cases hmk : wfail (db ++ str "/" ++ str "metadata.json")
          · rw [if_pos hmk]
            exact hst2
          · rw [if_neg hmk]
            exact goodStore_put_meta _ _ hst2
        · rw [if_neg hrem]
          by_cases hmk : wfail (db ++ str "/" ++ str "metadata.json")
          · rw [if_pos hmk]
            exact hst
          · rw [if_neg hmk]
            exact goodStore_put_meta _ _ hst
    · simp only [hf, not_false_eq_true, if_true]
      exact goodStore_refl st

/-- C10: in every partition blob written by an ingestion run (i.e. every
data blob of the resulting store that was not already present in the
initial store), every key maps to a record whose `phone` field equals the
key, and whose `formattedPhone` field is the `+7 (XXX) XXX-XX-XX`
rendering of it; the buffering step keys records by the same normalized
phone that record extraction stores into `phone`. -/
theorem C10_blobs_keyed_by_phone (st : Store) (wfail : Str → Bool)
    (busy : Bool) (filePath : Str) (fileOk : Bool) (db : Str)
    (pc : Option Str) (now : Nat) (lines : List Str) (key : Str)
    (m : List (Str × JsRecord))
    (hmem : (key, BlobContent.dataBlob m) ∈
      (createIndex st wfail busy filePath fileOk db pc now lines).store)
    (hnew : (key, BlobContent.dataBlob m) ∉ st) :
    ∀ k r, (k, r) ∈ m →
      objGet r (str "phone") = some k ∧
      objGet r (str "formattedPhone") = some (formatPhoneNumber k) ∧
      formatPhoneNumber k =
        str "+7 (" ++ (k.drop 1).take 3 ++ str ") " ++ (k.drop 4).take 3 ++
          str "-" ++ (k.drop 7).take 2 ++ str "-" ++ (k.drop 9).take 2 := by
  have hg := createIndexWith_good CHUNK_SIZE st wfail busy filePath fileOk db
    pc now lines
  rcases hg key m hmem with h | h
  · exact absurd h hnew
  · intro k r hkr
    obtain ⟨h1, h2, h3, h4⟩ := h k r hkr
    refine ⟨h1, h2, ?_⟩
    have htake : k.take 1 = ['7'] := by
      cases k with
      | nil => simp at h4
      | cons a t =>
        simp only [List.head?_cons, Option.some_inj] at h4
        simp [h4]
    rw [formatPhoneNumber, if_neg (by omega)]
    rw [htake]
    simp [str, List.append_assoc]

/-- The record extracted from the one-row witness source. -/
def recW : JsRecord :=
  extractPipeDelimitedData (splitOnChar '|' (str "A|B|C|D|79991234567"))
    (List.map trimStr (splitOnChar '|' hdrLinePipe))

/-- Witness for C10: the blob written by a concrete one-row run. -/
theorem C10_blobs_keyed_by_phone_witness :
    objGet recW (str "phone") = some (str "79991234567") ∧
    objGet recW (str "formattedPhone") =
      some (formatPhoneNumber (str "79991234567")) ∧
    formatPhoneNumber (str "79991234567") =
      str "+7 (" ++ ((str "79991234567").drop 1).take 3 ++ str ") " ++
        ((str "79991234567").drop 4).take 3 ++ str "-" ++
        ((str "79991234567").drop 7).take 2 ++ str "-" ++
        ((str "79991234567").drop 9).take 2 :=
  C10_blobs_keyed_by_phone [] (fun _ => false) false (str "/u/s.txt") true
    (str "dbw") none 5 (hdrLinePipe :: [str "A|B|C|D|79991234567"])
    (str "dbw/799/data.json") [(str "79991234567", recW)] (by decide)
    (by simp) (str "79991234567") recW (by decide)


/-! ### C1: round trip through the ingestion pipeline

The round-trip claim covers runs that cross the chunk-flush threshold,
so the model must reflect the program's actual interleaving.
`createIndex` reads the whole source with `getObject` (the `Body` is a
fully buffered `Buffer`) and wraps it in `Readable.from(Buffer)`, which
by documented Node behaviour emits the buffer as a single chunk without
iterating it; `readline` then emits every line of that chunk in one
synchronous loop.  The `line` handler is `async`: when the chunk
threshold is reached it suspends at `await saveBufferToS3(...)`, which
itself suspends at the awaited `createFolder` put before serializing
anything, and line emission continues meanwhile.  Hence all per-line
inserts into the one shared `buffer` object happen before any flush's
`writeJsonFile` serializes it, `buffer = ...` rebinds the variable only
after that capture (the captured object is never mutated afterwards),
and the close handler's emptiness check runs on a microtask before any
network write resolves, so the close-time flush captures the same full
object.  Every `data.json` write for a prefix therefore carries the full
accumulated mapping for that prefix, however many times the prefix is
flushed, and the final store holds exactly the accumulated buffer.
`accumLine` below is the synchronous prefix of the line handler (the
flush trigger merely schedules writes of that final content, and the
`processed` counter only gates those triggers), and
`createIndexBuffered` is `createIndex` under this semantics. -/

/-- The run state accumulated by the synchronous part of the line
handler. -/
structure AccumState where
  buffer : List (Str × List (Str × JsRecord))
  isFirstLine : Bool
  headers : List Str
  recordsFound : Nat
  processedLines : Nat
  prefixesFound : List Str
deriving DecidableEq

/-- The synchronous prefix of the `rl.on('line')` handler
(indexer.service.ts:347-406): identical to `stepLine` except that the
flush's deferred store writes are accounted once, at the end of
`createIndexBuffered`, with the content they actually serialize. -/
def accumLine (ps : AccumState) (line : Str) : AccumState :=
  let ps := { ps with processedLines := ps.processedLines + 1 }
  let rawData := jsonUnwrapLine line
  let fields := splitOnChar '|' rawData
  if ps.isFirstLine then
    { ps with headers := fields.map trimStr, isFirstLine := false }
  else if 5 ≤ fields.length then
    let phone := if 4 < fields.length then trimStr (fields.getD 4 []) else []
    if phone ≠ [] then
      match normalizePhone phone with
      | some np =>
        { ps with
          prefixesFound := addUnique ps.prefixesFound (np.take 3),
          buffer := bufInsert ps.buffer (np.take 3) np
            (extractPipeDelimitedData fields ps.headers),
          recordsFound := ps.recordsFound + 1 }
      | none => ps
    else ps
  else ps

def accumInit : AccumState := ⟨[], true, [], 0, 0, []⟩

/-- `IndexerService.createIndex` under the buffered single-chunk
semantics described above: every flush write carries the prefix's full
accumulated mapping, so the final store is the one obtained by writing
each accumulated prefix blob once (writing an empty buffer writes
nothing, matching the close handler's emptiness guard; repeated writes of
identical content collapse to one). -/
def createIndexBuffered (st : Store) (wfail : Str → Bool) (busy : Bool)
    (filePath : Str) (fileOk : Bool) (databaseId : Str)
    (phoneColumn : Option Str) (now : Nat) (lines : List Str) : IngestResult :=
  if busy then ⟨st, true, .err .busy⟩
  else if ¬ fileOk then ⟨st, false, .err .fileNotFound⟩
  else
    let s3FilePath := if filePath.head? = some '/' then filePath.drop 1 else filePath
    let dbFolder := databaseId ++ str "/"
    if wfail dbFolder then ⟨st, false, .err .storeError⟩
    else
      let st1 := putStore st dbFolder .folderMarker
      let final := lines.foldl accumLine accumInit
      let st2 := saveBufferToS3 wfail dbFolder st1 final.buffer
      let md : IndexMetadata :=
        { id := natToStr now
          originalFileName := (splitOnChar '/' s3FilePath).getLastD []
          totalRecords := final.recordsFound
          partitionsCount := (final.recordsFound + (PARTITION_SIZE - 1)) / PARTITION_SIZE
          partitionSize := PARTITION_SIZE
          createdAt := now
          phoneColumn := phoneColumn.getD (str "phone") }
      let metadataKey := dbFolder ++ str "metadata.json"
      if wfail metadataKey then ⟨st2, true, .stalled⟩
      else ⟨putStore st2 metadataKey (.metaBlob md), false, .ok md⟩

/-! Store-access lemmas for the round-trip proof. -/

theorem storeGet_putStore_self : ∀ (st : Store) (k : Str) (v : BlobContent),
    storeGet (putStore st k v) k = some v
  | [], k, v => by simp [putStore, storeGet]
  | kv :: rest, k, v => by
    by_cases h : kv.1 = k
    · simp [putStore, storeGet, h]
    · simp [putStore, storeGet, h, storeGet_putStore_self rest k v]

theorem storeGet_putStore_ne : ∀ (st : Store) (k : Str) (v : BlobContent)
    (k' : Str), k' ≠ k → storeGet (putStore st k v) k' = storeGet st k'
  | [], k, v, k', h => by
    have h1 : ¬ (k = k') := fun hc => h hc.symm
    simp [putStore, storeGet, h1]
  | kv :: rest, k, v, k', h => by
    by_cases hk : kv.1 = k
    · have h1 : ¬ (k = k') := fun hc => h hc.symm
      simp [putStore, storeGet, hk, h1]
    · by_cases hk' : kv.1 = k'
      · simp [putStore, storeGet, hk, hk', h]
      · simp [putStore, storeGet, hk, hk', storeGet_putStore_ne rest k v k' h]

theorem mem_putStore_self : ∀ (st : Store) (k : Str) (v : BlobContent),
    (k, v) ∈ putStore st k v
  | [], k, v => by simp [putStore]
  | kv :: rest, k, v => by
    by_cases h : kv.1 = k
    · simp [putStore, h]
    · simp only [putStore, h, if_false]
      exact List.mem_cons_of_mem _ (mem_putStore_self rest k v)

theorem storeGet_some_mem : ∀ (st : Store) (k : Str) (v : BlobContent),
    storeGet st k = some v → (k, v) ∈ st
  | [], k, v, h => by simp [storeGet] at h
  | kv :: rest, k, v, h => by
    unfold storeGet at h
    by_cases hk : kv.1 = k
    · rw [if_pos hk] at h
      have h2 : kv.2 = v := by simpa using h
      exact List.mem_cons.mpr (Or.inl (Prod.ext hk h2).symm)
    · rw [if_neg hk] at h
      exact List.mem_cons_of_mem _ (storeGet_some_mem rest k v h)

theorem storePrefixExists_of_mem {st : Store} {pfx : Str}
    (kv : Str × BlobContent) (hm : kv ∈ st)
    (hp : pfx.isPrefixOf kv.1 = true) : storePrefixExists st pfx = true :=
  List.any_eq_true.mpr ⟨kv, hm, hp⟩

theorem ne_of_length_ne {a b : Str} (h : a.length ≠ b.length) : a ≠ b :=
  fun he => h (he ▸ rfl)

theorem isPrefixOf_append_self (l t : Str) : l.isPrefixOf (l ++ t) = true := by
  rw [List.isPrefixOf_iff_prefix]
  exact List.prefix_append l t

theorem lookupNormalizePhone_canonical {k : Str} (h11 : k.length = 11)
    (h7 : k.head? = some '7') (hd : ∀ c ∈ k, c.isDigit = true) :
    lookupNormalizePhone k = some k := by
  have hk : digitChars k = k := List.filter_eq_self.mpr hd
  have r1 : ¬ ((digitChars k).head? = some '8' ∧ (digitChars k).length = 11) := by
    rw [hk]
    rintro ⟨hc, _⟩
    rw [h7] at hc
    exact absurd hc (by decide)
  have r2 : ¬ ((digitChars k).length = 10 ∧ (digitChars k).head? = some '9') := by
    rw [hk]
    rintro ⟨hc, _⟩
    omega
  rw [lookupNormalizePhone_char, if_neg r1, if_neg r2, hk, if_pos ⟨h11, h7⟩]

theorem objGet'_mem : ∀ (m : List (Str × JsRecord)) (k : Str) (r : JsRecord),
    objGet' m k = some r → (k, r) ∈ m
  | [], k, r, h => by simp [objGet'] at h
  | kv :: rest, k, r, h => by
    unfold objGet' at h
    by_cases hk : kv.1 = k
    · rw [if_pos hk] at h
      have h2 : kv.2 = r := by simpa using h
      exact List.mem_cons.mpr (Or.inl (Prod.ext hk h2).symm)
    · rw [if_neg hk] at h
      exact List.mem_cons_of_mem _ (objGet'_mem rest k r h)

theorem objGet'_isSome_of_mem : ∀ (m : List (Str × JsRecord)) (k : Str)
    (r : JsRecord), (k, r) ∈ m → ∃ r', objGet' m k = some r'
  | [], k, r, h => by simp at h
  | kv :: rest, k, r, h => by
    by_cases hk : kv.1 = k
    · exact ⟨kv.2, by simp [objGet', hk]⟩
    · rcases List.mem_cons.mp h with he | he
      · exact absurd (congrArg Prod.fst he).symm hk
      · obtain ⟨r', hr'⟩ := objGet'_isSome_of_mem rest k r he
        exact ⟨r', by simp [objGet', hk, hr']⟩

/-! Buffer-shape lemmas. -/

theorem bufInsert_keys : ∀ (buf : List (Str × List (Str × JsRecord)))
    (pfx k : Str) (r : JsRecord),
    (bufInsert buf pfx k r).map Prod.fst =
      if pfx ∈ buf.map Prod.fst then buf.map Prod.fst
      else buf.map Prod.fst ++ [pfx]
  | [], pfx, k, r => by simp [bufInsert]
  | pv :: rest, pfx, k, r => by
    by_cases hk : pv.1 = pfx
    · simp [bufInsert, hk]
    · have hne : ¬ pfx = pv.1 := fun hc => hk hc.symm
      simp only [bufInsert, hk, if_false, List.map_cons,
        bufInsert_keys rest pfx k r, List.mem_cons, hne, false_or]
      by_cases hm : pfx ∈ rest.map Prod.fst
      · simp [hm]
      · simp [hm]

theorem bufInsert_nodup_keys {buf : List (Str × List (Str × JsRecord))}
    (h : (buf.map Prod.fst).Nodup) (pfx k : Str) (r : JsRecord) :
    ((bufInsert buf pfx k r).map Prod.fst).Nodup := by
  rw [bufInsert_keys]
  by_cases hm : pfx ∈ buf.map Prod.fst
  · rw [if_pos hm]
    exact h
  · rw [if_neg hm]
    simp [List.nodup_append, h, hm]

theorem mem_bufInsert_keys {buf : List (Str × List (Str × JsRecord))}
    {pfx k : Str} {r : JsRecord} {p : Str}
    (hp : p ∈ (bufInsert buf pfx k r).map Prod.fst) :
    p ∈ buf.map Prod.fst ∨ p = pfx := by
  rw [bufInsert_keys] at hp
  by_cases hm : pfx ∈ buf.map Prod.fst
  · rw [if_pos hm] at hp
    exact Or.inl hp
  · rw [if_neg hm] at hp
    rcases List.mem_append.mp hp with h | h
    · exact Or.inl h
    · exact Or.inr (by simpa using h)

/-- `bufInsert` preserves any per-entry predicate that the inserted entry
satisfies at its own prefix. -/
theorem bufInsert_pred (P : Str → Str → JsRecord → Prop) :
    ∀ (buf : List (Str × List (Str × JsRecord))) (pfx k0 : Str)
      (r0 : JsRecord),
      (∀ p m, (p, m) ∈ buf → ∀ k r, (k, r) ∈ m → P p k r) →
      P pfx k0 r0 →
      ∀ p m, (p, m) ∈ bufInsert buf pfx k0 r0 → ∀ k r, (k, r) ∈ m → P p k r
  | [], pfx, k0, r0, _, h0 => by
    intro p m hm
    simp [bufInsert] at hm
    intro k r hkr
    rw [hm.2] at hkr
    simp at hkr
    obtain ⟨hk, hr⟩ := hkr
    subst hk
    subst hr
    rw [hm.1]
    exact h0
  | pv :: rest, pfx, k0, r0, hbuf, h0 => by
    have hrest : ∀ p m, (p, m) ∈ rest → ∀ k r, (k, r) ∈ m → P p k r :=
      fun p m hm => hbuf p m (List.mem_cons_of_mem _ hm)
    have hhead : ∀ k r, (k, r) ∈ pv.2 → P pv.1 k r :=
      fun k r => hbuf pv.1 pv.2 (by simp) k r
    intro p m hm
    unfold bufInsert at hm
    by_cases hk : pv.1 = pfx
    · rw [if_pos hk] at hm
      rcases List.mem_cons.mp hm with hm | hm
      · have hm1 : p = pfx := congrArg Prod.fst hm
        have hm2 : m = objSet' pv.2 k0 r0 := congrArg Prod.snd hm
        intro k r hkr
        rw [hm2] at hkr
        rcases objSet'_mem pv.2 k0 r0 (k, r) hkr with he | he
        · have hk2 : k = k0 ∧ r = r0 := by simpa [Prod.ext_iff] using he
          obtain ⟨hka, hkb⟩ := hk2
          subst hka
          subst hkb
          rw [hm1]
          exact h0
        · rw [hm1, ← hk]
          exact hhead k r he
      · exact hrest p m hm
    · rw [if_neg hk] at hm
      rcases List.mem_cons.mp hm with hm | hm
      · have hm1 : p = pv.1 := congrArg Prod.fst hm
        have hm2 : m = pv.2 := congrArg Prod.snd hm
        intro k r hkr
        rw [hm1]
        exact hhead k r (hm2 ▸ hkr)
      · exact bufInsert_pred P rest pfx k0 r0 hrest h0 p m hm

/-- The per-record facts the round-trip proof needs of every buffered
entry: it is stored under its own 3-digit prefix, it is canonical (11
digits, leading '7'), and the record carries it in `phone`. -/
def c1Entry (p k : Str) (r : JsRecord) : Prop :=
  k.take 3 = p ∧ k.length = 11 ∧ k.head? = some '7' ∧
  (∀ c ∈ k, c.isDigit = true) ∧ objGet r (str "phone") = some k

def c1Buf (buf : List (Str × List (Str × JsRecord))) : Prop :=
  (buf.map Prod.fst).Nodup ∧
  (∀ p ∈ buf.map Prod.fst, p.length = 3) ∧
  ∀ p m, (p, m) ∈ buf → ∀ k r, (k, r) ∈ m → c1Entry p k r

theorem accumLine_c1 (ps : AccumState) (line : Str) (h : c1Buf ps.buffer) :
    c1Buf (accumLine ps line).buffer := by
  unfold accumLine
  dsimp only
  by_cases hfl : ps.isFirstLine
  · simp only [hfl, if_true]
    exact h
  · rw [Bool.not_eq_true] at hfl
    rw [hfl]
    simp only [Bool.false_eq_true, if_false]
    by_cases hlen : 5 ≤ (splitOnChar '|' (jsonUnwrapLine line)).length
    · rw [if_pos hlen]
      by_cases hph : (if 4 < (splitOnChar '|' (jsonUnwrapLine line)).length then
          trimStr ((splitOnChar '|' (jsonUnwrapLine line)).getD 4 []) else []) ≠ []
      · rw [if_pos hph]
        rcases hnp : normalizePhone
            (if 4 < (splitOnChar '|' (jsonUnwrapLine line)).length then
              trimStr ((splitOnChar '|' (jsonUnwrapLine line)).getD 4 [])
            else []) with _ | np
        · simp only [hnp]
          exact h
        · simp only [hnp]
          have h4 : 4 < (splitOnChar '|' (jsonUnwrapLine line)).length := by omega
          rw [if_pos h4] at hnp
          obtain ⟨hl, hh, hdig⟩ := normalizePhone_some hnp
          obtain ⟨hx1, _⟩ := extract_phone_fields
            (splitOnChar '|' (jsonUnwrapLine line)) ps.headers np hnp
          refine ⟨bufInsert_nodup_keys h.1 _ _ _, ?_, ?_⟩
          · intro p hp
            rcases mem_bufInsert_keys hp with hp | hp
            · exact h.2.1 p hp
            · subst hp
              rw [List.length_take]
              omega
          · exact bufInsert_pred (fun p k r => c1Entry p k r) ps.buffer _ np _
              h.2.2 ⟨rfl, hl, hh, hdig, hx1⟩
      · rw [if_neg hph]
        exact h
    · rw [if_neg hlen]
      exact h

theorem foldl_accum_c1 : ∀ (lines : List Str) (ps : AccumState),
    c1Buf ps.buffer → c1Buf ((lines.foldl accumLine ps).buffer)
  | [], _, h => h
  | l :: rest, ps, h => by
    rw [List.foldl_cons]
    exact foldl_accum_c1 rest _ (accumLine_c1 ps l h)

/-! Key disjointness of the store writes. -/

theorem dataKey_ne_markerKey (dbF p p' : Str) (hp : p.length = 3)
    (hp' : p'.length = 3) :
    dbF ++ p ++ str "/" ++ str "data.json" ≠ dbF ++ p' ++ str "/" := by
  apply ne_of_length_ne
  simp only [List.length_append, hp, hp']
  simp [str]

theorem dataKey_ne_dataKey (dbF p p' : Str) (hp : p.length = 3)
    (hp' : p'.length = 3) (hne : p ≠ p') :
    dbF ++ p ++ str "/" ++ str "data.json" ≠
      dbF ++ p' ++ str "/" ++ str "data.json" := by
  intro hc
  simp only [List.append_assoc] at hc
  have h1 := List.append_cancel_left hc
  exact hne (List.append_inj h1 (hp.trans hp'.symm)).1

theorem mdKey_ne_dataKey (dbF p : Str) (h7 : p.head? = some '7') :
    dbF ++ str "metadata.json" ≠ dbF ++ p ++ str "/" ++ str "data.json" := by
  intro hc
  simp only [List.append_assoc] at hc
  have h1 := List.append_cancel_left hc
  have hne : p ≠ [] := by
    intro he
    rw [he] at h7
    simp at h7
  have h2 : (str "metadata.json").head? = p.head? := by
    rw [h1, List.head?_append_of_ne_nil _ hne]
  rw [h7] at h2
  exact absurd h2 (by decide)

/-! Store content after a failure-free flush of the accumulated buffer. -/

theorem saveBuffer_none_cons (dbF : Str) (st : Store)
    (pv : Str × List (Str × JsRecord))
    (rest : List (Str × List (Str × JsRecord))) :
    saveBufferToS3 (fun _ => false) dbF st (pv :: rest) =
      saveBufferToS3 (fun _ => false) dbF
        (putStore (putStore st (dbF ++ pv.1 ++ str "/") .folderMarker)
          (dbF ++ pv.1 ++ str "/" ++ str "data.json") (.dataBlob pv.2))
        rest := rfl

theorem saveBuffer_get_other (dbF : Str) :
    ∀ (buf : List (Str × List (Str × JsRecord))) (st : Store) (key : Str),
      (∀ p ∈ buf.map Prod.fst, key ≠ dbF ++ p ++ str "/" ∧
        key ≠ dbF ++ p ++ str "/" ++ str "data.json") →
      storeGet (saveBufferToS3 (fun _ => false) dbF st buf) key =
        storeGet st key
  | [], _, _, _ => rfl
  | pv :: rest, st, key, h => by
    rw [saveBuffer_none_cons,
      saveBuffer_get_other dbF rest _ key
        (fun p hp => h p (List.mem_cons_of_mem _ hp))]
    have h1 := h pv.1 (by simp)
    rw [storeGet_putStore_ne _ _ _ _ h1.2, storeGet_putStore_ne _ _ _ _ h1.1]

theorem saveBuffer_get_data (dbF : Str) :
    ∀ (buf : List (Str × List (Str × JsRecord))) (st : Store) (p : Str)
      (m : List (Str × JsRecord)),
      (p, m) ∈ buf →
      (buf.map Prod.fst).Nodup →
      (∀ p' ∈ buf.map Prod.fst, p'.length = 3) →
      storeGet (saveBufferToS3 (fun _ => false) dbF st buf)
        (dbF ++ p ++ str "/" ++ str "data.json") = some (.dataBlob m)
  | [], _, p, m, hm, _, _ => by simp at hm
  | pv :: rest, st, p, m, hm, hnd, hlen => by
    rw [saveBuffer_none_cons]
    have hplen : p.length = 3 := by
      rcases List.mem_cons.mp hm with he | he
      · have h1 : p = pv.1 := congrArg Prod.fst he
        rw [h1]
        exact hlen pv.1 (by simp)
      · exact hlen p
          (List.mem_map.mpr ⟨(p, m), List.mem_cons_of_mem _ he, rfl⟩)
    rcases List.mem_cons.mp hm with he | he
    · have hp1 : pv.1 = p := (congrArg Prod.fst he).symm
      have hm2 : pv.2 = m := (congrArg Prod.snd he).symm
      rw [saveBuffer_get_other dbF rest _ _ ?hother]
      case hother =>
        intro p' hp'
        have hp'3 : p'.length = 3 := hlen p' (by simp [hp'])
        have hne : p ≠ p' := by
          intro hc
          subst hc
          rw [← hp1] at hp'
          exact (List.nodup_cons.mp (by simpa using hnd)).1 hp'
        exact ⟨dataKey_ne_markerKey dbF p p' hplen hp'3,
          dataKey_ne_dataKey dbF p p' hplen hp'3 hne⟩
      rw [hp1, hm2, storeGet_putStore_self]
    · exact saveBuffer_get_data dbF rest _ p m he
        (List.nodup_cons.mp (by simpa using hnd)).2
        (fun p' hp' => hlen p' (by simp [hp']))

/-- C1: every record the ingestion run indexes — every key of the
accumulated buffer, which is what each flush write serializes — is
retrievable afterwards by a point lookup of its canonical phone, which
returns a Record whose `phone` field equals that phone.  The run may
cross the chunk-flush threshold any number of times: the accumulated
buffer, and hence the stored blobs, are the same.  The run is taken with
no store-write failures (a record whose blob write failed is not
successfully ingested), an idle busy flag, and a readable source. -/
theorem C1_round_trip_lookup (st : Store) (filePath : Str) (db : Str)
    (pc : Option Str) (now : Nat) (lines : List Str) (p k : Str)
    (m : List (Str × JsRecord)) (r : JsRecord)
    (hm : (p, m) ∈ (lines.foldl accumLine accumInit).buffer)
    (hkr : (k, r) ∈ m) :
    ∃ r', findByPhone (createIndexBuffered st (fun _ => false) false filePath
        true db pc now lines).store db k = .ok r' ∧
      objGet r' (str "phone") = some k := by
  have hinv := foldl_accum_c1 lines accumInit
    ⟨by simp [accumInit], by simp [accumInit], by simp [accumInit]⟩
  obtain ⟨hnd, hplen, hent⟩ := hinv
  obtain ⟨hp3, h11, h7, hdig, _⟩ := hent p m hm k r hkr
  have hp7 : p.head? = some '7' := by
    rw [← hp3]
    cases k with
    | nil => simp at h7
    | cons c t =>
      rw [show (3 : Nat) = 2 + 1 from rfl, List.take_succ_cons, List.head?_cons]
      rw [List.head?_cons] at h7
      exact h7
  obtain ⟨md, hstore⟩ : ∃ md : IndexMetadata,
      (createIndexBuffered st (fun _ => false) false filePath true db pc now
        lines).store =
      putStore (saveBufferToS3 (fun _ => false) (db ++ str "/")
          (putStore st (db ++ str "/") .folderMarker)
          ((lines.foldl accumLine accumInit).buffer))
        ((db ++ str "/") ++ str "metadata.json") (.metaBlob md) := ⟨_, rfl⟩
  have hsplit : ∀ X : Str, X ++ str "/data.json" = (X ++ str "/") ++ str "data.json" := by
    intro X
    rw [List.append_assoc]
    exact congrArg (fun t => X ++ t) (by decide)
  have hget2 := saveBuffer_get_data (db ++ str "/")
    ((lines.foldl accumLine accumInit).buffer)
    (putStore st (db ++ str "/") .folderMarker) p m hm hnd hplen
  have hmdne : ((db ++ str "/") ++ str "metadata.json") ≠
      (db ++ str "/") ++ p ++ str "/" ++ str "data.json" :=
    mdKey_ne_dataKey (db ++ str "/") p hp7
  have hdataget : storeGet
      (putStore (saveBufferToS3 (fun _ => false) (db ++ str "/")
          (putStore st (db ++ str "/") .folderMarker)
          ((lines.foldl accumLine accumInit).buffer))
        ((db ++ str "/") ++ str "metadata.json") (.metaBlob md))
      (db ++ str "/" ++ k.take 3 ++ str "/data.json") = some (.dataBlob m) := by
    rw [hsplit, ← hp3] at *
    rw [storeGet_putStore_ne _ _ _ _ (Ne.symm hmdne)]
    exact hget2
  have hdbex : storePrefixExists
      (putStore (saveBufferToS3 (fun _ => false) (db ++ str "/")
          (putStore st (db ++ str "/") .folderMarker)
          ((lines.foldl accumLine accumInit).buffer))
        ((db ++ str "/") ++ str "metadata.json") (.metaBlob md))
      (db ++ str "/") = true :=
    storePrefixExists_of_mem _ (mem_putStore_self _ _ _)
      (isPrefixOf_append_self _ _)
  have hpfxex : storePrefixExists
      (putStore (saveBufferToS3 (fun _ => false) (db ++ str "/")
          (putStore st (db ++ str "/") .folderMarker)
          ((lines.foldl accumLine accumInit).buffer))
        ((db ++ str "/") ++ str "metadata.json") (.metaBlob md))
      (db ++ str "/" ++ k.take 3 ++ str "/") = true := by
    refine storePrefixExists_of_mem _ (storeGet_some_mem _ _ _ hdataget) ?_
    rw [hsplit (db ++ str "/" ++ k.take 3)]
    exact isPrefixOf_append_self _ _
  have hnorm := lookupNormalizePhone_canonical h11 h7 hdig
  obtain ⟨r', hr'⟩ := objGet'_isSome_of_mem m k r hkr
  obtain ⟨_, _, _, _, hphone'⟩ := hent p m hm k r' (objGet'_mem m k r' hr')
  refine ⟨r', ?_, hphone'⟩
  rw [hstore]
  unfold findByPhone
  dsimp only
  rw [if_neg (not_not_intro hdbex)]
  rw [hnorm]
  dsimp only
  rw [if_neg (not_not_intro hpfxex)]
  rw [hdataget]
  dsimp only
  rw [hr']

def rowA : Str := str "Ivanov|Ivan|Ivanovich|1990-01-01|79991234567"
def rowB : Str := str "Petrov|Petr|Petrovich|1991-02-02|79990000000"
def phoneA : Str := str "79991234567"
def phoneB : Str := str "79990000000"
def hdrs5 : List Str := List.map trimStr (splitOnChar '|' hdrLinePipe)
def recA : JsRecord := extractPipeDelimitedData (splitOnChar '|' rowA) hdrs5
def recB : JsRecord := extractPipeDelimitedData (splitOnChar '|' rowB) hdrs5

/-- Witness for C1: a concrete run over two data rows sharing prefix 799;
the first row's phone is looked up successfully afterwards. -/
theorem C1_round_trip_lookup_witness :
    ∃ r', findByPhone (createIndexBuffered [] (fun _ => false) false
        (str "/uploads/w.txt") true (str "dbz") none 9
        (hdrLinePipe :: [rowA, rowB])).store (str "dbz") phoneA = .ok r' ∧
      objGet r' (str "phone") = some phoneA :=
  C1_round_trip_lookup [] (str "/uploads/w.txt") (str "dbz") none 9
    (hdrLinePipe :: [rowA, rowB]) (str "799") phoneA
    [(phoneA, recA), (phoneB, recB)] recA (by decide) (by decide)

end Indexer
